import Mathlib

/-!
Shallow embedding of the Neo-AI service (Python) in Lean 4, together with
theorems settling the frozen claims about its specification.

Modelling conventions used throughout:
* Python floats are modelled as exact rationals; all the quantities the
  claims touch (token counts, delays, timestamps, JSON decimal literals)
  are exact decimals, so no rounding behaviour is lost for the inputs the
  claims quantify over.
* Wall-clock reads (time.time()) become explicit rational parameters.
* Python dicts become association lists; insertion of an existing key
  replaces the value in place, new keys are appended at the end, which is
  exactly the CPython ordered-dict semantics the source relies on.
* Fallible code returns Option; async functions are modelled as pure state
  transformers (the per-object asyncio locks serialize every read-modify-
  write sequence, so one atomic Lean function per Python method is the
  faithful picture).
-/

namespace NeoAI

/-! ## Association-list helpers (CPython dict semantics) -/

/-- Lookup in an association list, first match wins (Python dict access). -/
def alistGet {α : Type} (l : List (String × α)) (k : String) : Option α :=
  match l with
  | [] => none
  | (k0, v0) :: rest => if k0 = k then some v0 else alistGet rest k

/-- Python dict assignment: replace in place when the key exists, else
append at the end (CPython preserves the original position on update). -/
def alistSet {α : Type} (l : List (String × α)) (k : String) (v : α) :
    List (String × α) :=
  match l with
  | [] => [(k, v)]
  | (k0, v0) :: rest =>
      if k0 = k then (k0, v) :: rest else (k0, v0) :: alistSet rest k v

/-- Python dict deletion (del d[k]): removes the first binding of k. -/
def alistDel {α : Type} (l : List (String × α)) (k : String) :
    List (String × α) :=
  match l with
  | [] => []
  | (k0, v0) :: rest =>
      if k0 = k then rest else (k0, v0) :: alistDel rest k

/-! ## Token bucket — src/rate_limiter/token_bucket.py -/

/-- State of TokenBucket: capacity, refill_rate, tokens, last_refill. -/
structure TokenBucket where
  capacity : ℚ
  refill_rate : ℚ
  tokens : ℚ
  last_refill : ℚ
  deriving Repr, DecidableEq

/-- TokenBucket.__init__: tokens start at full capacity, last_refill is the
construction time. -/
def TokenBucket.mk0 (capacity : ℚ) (refill_rate : ℚ) (now : ℚ) : TokenBucket :=
  { capacity := capacity, refill_rate := refill_rate,
    tokens := capacity, last_refill := now }

/-- TokenBucket._refill: tokens = min(capacity, tokens + elapsed * rate),
last_refill = now. -/
def TokenBucket.refill (b : TokenBucket) (now : ℚ) : TokenBucket :=
  let elapsed := now - b.last_refill
  let tokens_to_add := elapsed * b.refill_rate
  { b with tokens := min b.capacity (b.tokens + tokens_to_add),
           last_refill := now }

/-- TokenBucket.consume: refill, then subtract when enough tokens are
present, reporting success; else leave the refilled state and report
failure. -/
def TokenBucket.consume (b : TokenBucket) (n : ℚ) (now : ℚ) :
    Bool × TokenBucket :=
  let b := b.refill now
  if n ≤ b.tokens then (true, { b with tokens := b.tokens - n })
  else (false, b)

/-- TokenBucket.get_wait_time: refill, then none when available now, else
(n - tokens) / refill_rate. -/
def TokenBucket.getWaitTime (b : TokenBucket) (n : ℚ) (now : ℚ) :
    Option ℚ × TokenBucket :=
  let b := b.refill now
  if n ≤ b.tokens then (none, b)
  else (some ((n - b.tokens) / b.refill_rate), b)

/-! ## Rate limiter — src/rate_limiter/rate_limiter.py -/

/-- RateLimitConfig with the source defaults. The model_limits table is
declared in the source but never enforced (marked TODO there), so it is
omitted from the state the claims quantify over. -/
structure RateLimitConfig where
  enabled : Bool := true
  global_requests_per_second : ℚ := 10
  global_requests_per_minute : ℚ := 100
  global_burst_size : ℤ := 20
  client_requests_per_second : ℚ := 2
  client_requests_per_minute : ℚ := 20
  client_burst_size : ℤ := 5
  enable_priority : Bool := true
  high_priority_multiplier : ℚ := 2
  deriving Repr, DecidableEq

/-- Per-client counters kept in client_stats. -/
structure ClientStats where
  allowed : ℕ := 0
  rejected : ℕ := 0
  deriving Repr, DecidableEq

/-- RateLimiter state: config, the two global buckets, the lazily created
per-client buckets, and the counters. -/
structure RateLimiter where
  config : RateLimitConfig
  global_second_bucket : TokenBucket
  global_minute_bucket : TokenBucket
  client_second_buckets : List (String × TokenBucket)
  client_minute_buckets : List (String × TokenBucket)
  total_requests : ℕ
  rejected_requests : ℕ
  client_stats : List (String × ClientStats)
  deriving Repr, DecidableEq

/-- RateLimiter.__init__ at construction time now. -/
def RateLimiter.mk0 (cfg : RateLimitConfig) (now : ℚ) : RateLimiter :=
  { config := cfg
    global_second_bucket :=
      TokenBucket.mk0 (cfg.global_burst_size : ℚ)
        cfg.global_requests_per_second now
    global_minute_bucket :=
      TokenBucket.mk0 ⌊cfg.global_requests_per_minute⌋
        (cfg.global_requests_per_minute / 60) now
    client_second_buckets := []
    client_minute_buckets := []
    total_requests := 0
    rejected_requests := 0
    client_stats := [] }

/-- RateLimiter._get_client_bucket for bucket_type "second": get or create
(creation happens at the time of the call). -/
def RateLimiter.getClientSecondBucket (rl : RateLimiter) (client_id : String)
    (now : ℚ) : TokenBucket × RateLimiter :=
  match alistGet rl.client_second_buckets client_id with
  | some b => (b, rl)
  | none =>
      let b := TokenBucket.mk0 (rl.config.client_burst_size : ℚ)
        rl.config.client_requests_per_second now
      (b, { rl with client_second_buckets :=
              alistSet rl.client_second_buckets client_id b })

/-- RateLimiter._get_client_bucket for bucket_type "minute". -/
def RateLimiter.getClientMinuteBucket (rl : RateLimiter) (client_id : String)
    (now : ℚ) : TokenBucket × RateLimiter :=
  match alistGet rl.client_minute_buckets client_id with
  | some b => (b, rl)
  | none =>
      let b := TokenBucket.mk0 ⌊rl.config.client_requests_per_minute⌋
        (rl.config.client_requests_per_minute / 60) now
      (b, { rl with client_minute_buckets :=
              alistSet rl.client_minute_buckets client_id b })

/-- RateLimiter._record_rejection: bump the global and per-client rejection
counters. The reason string is only logged in the source; the caller of
this model keeps it in the result for inspection. -/
def RateLimiter.recordRejection (rl : RateLimiter) (client_id : String) :
    RateLimiter :=
  let stats := (alistGet rl.client_stats client_id).getD {}
  let newStats := { stats with rejected := stats.rejected + 1 }
  { rl with
      rejected_requests := rl.rejected_requests + 1
      client_stats := alistSet rl.client_stats client_id newStats }

/-- The priority adjustment at the top of check_rate_limit: "high"
priority divides the requested cost by the multiplier when priority
handling is enabled. -/
def effectiveTokens (cfg : RateLimitConfig) (priority : String)
    (tokens : ℚ) : ℚ :=
  if cfg.enable_priority && priority == "high" then
    tokens / cfg.high_priority_multiplier
  else tokens

/-- Result of one check_rate_limit call: the returned pair
(allowed, wait_time), the mutated limiter, and the reason string passed to
_record_rejection when a bucket rejected (none when allowed). -/
structure CheckResult where
  allowed : Bool
  wait_time : Option ℚ
  state : RateLimiter
  reason : Option String
  deriving Repr, DecidableEq

/-- RateLimiter.check_rate_limit. The model parameter is unused by the
source beyond a dead TODO branch, so it is dropped here. The wall-clock
parameter now stands for the (essentially equal) time.time() reads inside
one call. -/
def RateLimiter.checkRateLimit (rl : RateLimiter) (client_id : String)
    (priority : String) (tokens : ℚ) (now : ℚ) : CheckResult :=
  if !rl.config.enabled then
    { allowed := true, wait_time := none, state := rl, reason := none }
  else
    let rl := { rl with total_requests := rl.total_requests + 1 }
    let effective_tokens := effectiveTokens rl.config priority tokens
    -- global per-second bucket
    let c1 := rl.global_second_bucket.consume effective_tokens now
    let rl := { rl with global_second_bucket := c1.2 }
    if !c1.1 then
      let w := rl.global_second_bucket.getWaitTime effective_tokens now
      let rl := { rl with global_second_bucket := w.2 }
      { allowed := false, wait_time := w.1,
        state := rl.recordRejection client_id,
        reason := some "global_second_limit" }
    else
    -- global per-minute bucket
    let c2 := rl.global_minute_bucket.consume effective_tokens now
    let rl := { rl with global_minute_bucket := c2.2 }
    if !c2.1 then
      let w := rl.global_minute_bucket.getWaitTime effective_tokens now
      let rl := { rl with global_minute_bucket := w.2 }
      { allowed := false, wait_time := w.1,
        state := rl.recordRejection client_id,
        reason := some "global_minute_limit" }
    else
    -- client per-second bucket
    let g3 := rl.getClientSecondBucket client_id now
    let c3 := g3.1.consume effective_tokens now
    let rl := { g3.2 with client_second_buckets :=
                  alistSet g3.2.client_second_buckets client_id c3.2 }
    if !c3.1 then
      let w := c3.2.getWaitTime effective_tokens now
      let rl := { rl with client_second_buckets :=
                    alistSet rl.client_second_buckets client_id w.2 }
      { allowed := false, wait_time := w.1,
        state := rl.recordRejection client_id,
        reason := some "client_second_limit" }
    else
    -- client per-minute bucket
    let g4 := rl.getClientMinuteBucket client_id now
    let c4 := g4.1.consume effective_tokens now
    let rl := { g4.2 with client_minute_buckets :=
                  alistSet g4.2.client_minute_buckets client_id c4.2 }
    if !c4.1 then
      let w := c4.2.getWaitTime effective_tokens now
      let rl := { rl with client_minute_buckets :=
                    alistSet rl.client_minute_buckets client_id w.2 }
      { allowed := false, wait_time := w.1,
        state := rl.recordRejection client_id,
        reason := some "client_minute_limit" }
    else
      let stats := (alistGet rl.client_stats client_id).getD {}
      let newStats := { stats with allowed := stats.allowed + 1 }
      let rl := { rl with
        client_stats := alistSet rl.client_stats client_id newStats }
      { allowed := true, wait_time := none, state := rl, reason := none }

/-! ## Circuit breaker — src/errors/error_handler.py, class CircuitBreaker -/

/-- The three breaker states "closed", "open", "half-open". -/
inductive CBState
  | closed
  | opened
  | halfOpen
  deriving Repr, DecidableEq

/-- CircuitBreaker state. last_failure_time is None until the first
recorded failure. -/
structure CircuitBreaker where
  failure_threshold : ℕ
  recovery_timeout : ℚ
  failure_count : ℕ
  last_failure_time : Option ℚ
  state : CBState
  deriving Repr, DecidableEq

/-- CircuitBreaker.__init__. -/
def CircuitBreaker.mk0 (thr : ℕ) (rt : ℚ) : CircuitBreaker :=
  { failure_threshold := thr, recovery_timeout := rt,
    failure_count := 0, last_failure_time := none, state := .closed }

/-- CircuitBreaker.record_success: reset the count, close the breaker. -/
def CircuitBreaker.recordSuccess (cb : CircuitBreaker) : CircuitBreaker :=
  { cb with failure_count := 0, state := .closed }

/-- CircuitBreaker.record_failure at wall-clock time now. -/
def CircuitBreaker.recordFailure (cb : CircuitBreaker) (now : ℚ) :
    CircuitBreaker :=
  if cb.failure_threshold ≤ cb.failure_count + 1 then
    { cb with failure_count := cb.failure_count + 1,
              last_failure_time := some now, state := .opened }
  else
    { cb with failure_count := cb.failure_count + 1,
              last_failure_time := some now }

/-- CircuitBreaker.can_attempt at time now. In the open state the source
dereferences last_failure_time, which is always set there because the open
state is only ever entered by record_failure; getD 0 stands for that
dereference. -/
def CircuitBreaker.canAttempt (cb : CircuitBreaker) (now : ℚ) :
    Bool × CircuitBreaker :=
  match cb.state with
  | .closed => (true, cb)
  | .opened =>
      if cb.recovery_timeout ≤ now - (cb.last_failure_time.getD 0) then
        (true, { cb with state := .halfOpen })
      else (false, cb)
  | .halfOpen => (true, cb)

/-- One external interaction with a breaker, used to reason about the
states reachable from construction. -/
inductive CBOp
  | success
  | failure (now : ℚ)
  | attempt (now : ℚ)
  deriving Repr, DecidableEq

/-- Apply one interaction to a breaker. -/
def CircuitBreaker.step (cb : CircuitBreaker) (op : CBOp) : CircuitBreaker :=
  match op with
  | .success => cb.recordSuccess
  | .failure now => cb.recordFailure now
  | .attempt now => (cb.canAttempt now).2

/-- Run a sequence of interactions from a given breaker state. -/
def CircuitBreaker.run (cb : CircuitBreaker) (ops : List CBOp) :
    CircuitBreaker :=
  ops.foldl CircuitBreaker.step cb

/-! ## Error handler retry wrapper — src/errors/error_handler.py -/

/-- ErrorConfig with the source defaults. -/
structure ErrorConfig where
  enable_retry : Bool := true
  max_retries : ℕ := 3
  retry_delay : ℚ := 1
  retry_backoff : ℚ := 2
  enable_fallback : Bool := true
  log_errors : Bool := true
  enable_circuit_breaker : Bool := true
  failure_threshold : ℕ := 5
  recovery_timeout : ℚ := 60
  include_details : Bool := false
  include_traceback : Bool := false
  deriving Repr, DecidableEq

/-- The exception taxonomy of src/errors/exceptions.py, restricted to what
with_retry inspects: ValidationError and RateLimitError are the classes
that are never retried; AIServiceError carries an optional error_code (the
wrapper itself raises one with code CIRCUIT_BREAKER_OPEN); everything else
is a generic exception. -/
inductive PyError
  | validationErr (msg : String)
  | rateLimitErr (msg : String)
  | serviceErr (msg : String) (error_code : Option String)
  | genericErr (msg : String)
  deriving Repr, DecidableEq

/-- The isinstance(e, (ValidationError, RateLimitError)) test. -/
def PyError.neverRetried : PyError → Bool
  | .validationErr _ => true
  | .rateLimitErr _ => true
  | _ => false

/-- Outcome of one invocation of the wrapped coroutine. -/
inductive FOutcome (α : Type)
  | ok (v : α)
  | raise (e : PyError)

/-- ErrorHandler._get_circuit_breaker: get or create the breaker for a
service name. -/
def getCircuitBreaker (breakers : List (String × CircuitBreaker))
    (cfg : ErrorConfig) (name : String) :
    CircuitBreaker × List (String × CircuitBreaker) :=
  match alistGet breakers name with
  | some b => (b, breakers)
  | none =>
      let b := CircuitBreaker.mk0 cfg.failure_threshold cfg.recovery_timeout
      (b, alistSet breakers name b)

/-- Mutable pieces of ErrorHandler touched by one with_retry call, plus a
trace of the calls made to the wrapped coroutine and of the backoff
sleeps. -/
structure RetryState where
  calls : ℕ
  sleeps : List ℚ
  breakers : List (String × CircuitBreaker)
  total_errors : ℕ
  retries_stat : ℕ
  error_types : List (String × ℕ)

/-- type(e).__name__, as used by ErrorHandler._record_error. -/
def PyError.typeName : PyError → String
  | .validationErr _ => "ValidationError"
  | .rateLimitErr _ => "RateLimitError"
  | .serviceErr _ _ => "AIServiceError"
  | .genericErr _ => "Exception"

/-- ErrorHandler._record_error. -/
def recordError (e : PyError) (st : RetryState) : RetryState :=
  let n := (alistGet st.error_types e.typeName).getD 0
  { st with total_errors := st.total_errors + 1,
            error_types := alistSet st.error_types e.typeName (n + 1) }

/-- What one loop iteration of the wrapper decides: return a result, or
sleep for a backoff delay and try again (carrying the error for
last_error). -/
inductive IterOut (α : Type)
  | done (r : Except PyError α)
  | retryAfter (delay : ℚ) (e : PyError)

/-- The except-branch of the wrapper body: record the error, record a
breaker failure, re-raise validation and rate-limit errors at once, retry
with exponential backoff while attempts remain, else re-raise. -/
def withRetryHandle (cfg : ErrorConfig) (service : Option String)
    (attempt : ℕ) (t : ℚ) (e : PyError) (st : RetryState) :
    IterOut α × RetryState :=
  let st := recordError e st
  let st :=
    match service with
    | some name =>
        if cfg.enable_circuit_breaker then
          let (b, bs) := getCircuitBreaker st.breakers cfg name
          { st with breakers := alistSet bs name (b.recordFailure t) }
        else st
    | none => st
  if e.neverRetried then (.done (.error e), st)
  else if attempt < cfg.max_retries && cfg.enable_retry then
    let delay := cfg.retry_delay * cfg.retry_backoff ^ attempt
    (.retryAfter delay e, { st with retries_stat := st.retries_stat + 1 })
  else (.done (.error e), st)

/-- One iteration of the for-loop in ErrorHandler.with_retry: circuit
breaker pre-check (a failed check raises inside the try block and lands in
the same except branch as a failure of the coroutine itself), then the
coroutine call, success recording, and the except branch. -/
def withRetryIter (cfg : ErrorConfig) (service : Option String)
    (f : ℕ → FOutcome α) (attempt : ℕ) (t : ℚ) (st : RetryState) :
    IterOut α × RetryState :=
  match service, cfg.enable_circuit_breaker with
  | some name, true =>
      let g := getCircuitBreaker st.breakers cfg name
      let ca := g.1.canAttempt t
      let st := { st with breakers := alistSet g.2 name ca.2 }
      if !ca.1 then
        withRetryHandle cfg service attempt t
          (.serviceErr ("Circuit breaker open for " ++ name)
            (some "CIRCUIT_BREAKER_OPEN")) st
      else
        let outcome := f st.calls
        let st := { st with calls := st.calls + 1 }
        match outcome with
        | .ok v =>
            let g := getCircuitBreaker st.breakers cfg name
            (.done (.ok v),
              { st with breakers := alistSet g.2 name g.1.recordSuccess })
        | .raise e => withRetryHandle cfg service attempt t e st
  | _, _ =>
      let outcome := f st.calls
      let st := { st with calls := st.calls + 1 }
      match outcome with
      | .ok v => (.done (.ok v), st)
      | .raise e => withRetryHandle cfg service attempt t e st

/-- Result of a with_retry call. -/
structure RetryRun (α : Type) where
  result : Except PyError α
  finalState : RetryState

/-- The for-loop of with_retry. The fuel is the number of remaining
iterations of range(max_retries + 1); the fuel-exhausted case corresponds
to the final raise last_error line, which is unreachable because the last
iteration never asks for another retry. -/
def withRetryLoop (cfg : ErrorConfig) (service : Option String)
    (f : ℕ → FOutcome α) (times : ℕ → ℚ) :
    ℕ → ℕ → RetryState → Option PyError → RetryRun α
  | _, 0, st, lastE =>
      ⟨.error (lastE.getD (.genericErr "unreachable")), st⟩
  | attempt, fuel + 1, st, _ =>
      match withRetryIter cfg service f attempt (times attempt) st with
      | (.done r, st) => ⟨r, st⟩
      | (.retryAfter d e, st) =>
          withRetryLoop cfg service f times (attempt + 1) fuel
            { st with sleeps := st.sleeps ++ [d] } (some e)

/-- ErrorHandler.with_retry applied to a coroutine. The coroutine is
modelled by the outcome of its k-th invocation; times gives the wall clock
at the start of each loop iteration. -/
def withRetry (cfg : ErrorConfig) (service : Option String)
    (breakers : List (String × CircuitBreaker)) (f : ℕ → FOutcome α)
    (times : ℕ → ℚ) : RetryRun α :=
  withRetryLoop cfg service f times 0 (cfg.max_retries + 1)
    { calls := 0, sleeps := [], breakers := breakers,
      total_errors := 0, retries_stat := 0, error_types := [] } none

/-! ## Cache manager — src/cache/cache_manager.py

The embedding covers the in-memory storage type; the file-backed branches
perform filesystem traffic and are outside every claim (the claims fix the
default storage_type "memory", for which those branches are skipped). -/

/-- CacheConfig with the source defaults. -/
structure CacheConfig where
  enabled : Bool := true
  max_size : ℕ := 1000
  ttl_seconds : ℚ := 3600
  deriving Repr, DecidableEq

/-- CacheEntry. -/
structure CacheEntry (α : Type) where
  key : String
  value : α
  created_at : ℚ
  accessed_at : ℚ
  access_count : ℕ := 0
  ttl : ℚ := 3600
  deriving Repr, DecidableEq

/-- CacheEntry.is_expired at time now. -/
def CacheEntry.isExpired (e : CacheEntry α) (now : ℚ) : Bool :=
  e.ttl < now - e.created_at

/-- CacheEntry.touch at time now. -/
def CacheEntry.touch (e : CacheEntry α) (now : ℚ) : CacheEntry α :=
  { e with accessed_at := now, access_count := e.access_count + 1 }

/-- CacheManager state: the OrderedDict is an association list whose head
is the least recently used entry (move_to_end appends at the tail,
popitem(last=False) pops the head). -/
structure CacheManager (α : Type) where
  config : CacheConfig
  cache : List (String × CacheEntry α)
  hits : ℕ := 0
  misses : ℕ := 0
  evictions : ℕ := 0
  deriving Repr, DecidableEq

/-- CacheManager.__init__. -/
def CacheManager.mk0 (cfg : CacheConfig) : CacheManager α :=
  { config := cfg, cache := [] }

/-- CacheManager.delete (memory storage). -/
def CacheManager.delete (cm : CacheManager α) (key : String) :
    CacheManager α :=
  { cm with cache := alistDel cm.cache key }

/-- OrderedDict.move_to_end. -/
def CacheManager.moveToEnd (cm : CacheManager α) (key : String)
    (e : CacheEntry α) : CacheManager α :=
  { cm with cache := alistDel cm.cache key ++ [(key, e)] }

/-- CacheManager.get at time now (memory storage). -/
def CacheManager.get (cm : CacheManager α) (key : String) (now : ℚ) :
    Option α × CacheManager α :=
  if !cm.config.enabled then (none, cm)
  else
    match alistGet cm.cache key with
    | none => (none, { cm with misses := cm.misses + 1 })
    | some e =>
        if e.isExpired now then
          let cm := cm.delete key
          (none, { cm with misses := cm.misses + 1 })
        else
          let e := e.touch now
          let cm := { cm with hits := cm.hits + 1 }
          (some e.value, cm.moveToEnd key e)

/-- CacheManager._evict_lru (memory storage): pop the first item. -/
def CacheManager.evictLru (cm : CacheManager α) : CacheManager α :=
  match cm.cache with
  | [] => cm
  | _ :: rest => { cm with cache := rest, evictions := cm.evictions + 1 }

/-- The Python expression (ttl or config.ttl_seconds): None and 0 are both
falsy and fall back to the configured default. -/
def resolveTtl (ttl : Option ℚ) (cfg : CacheConfig) : ℚ :=
  match ttl with
  | none => cfg.ttl_seconds
  | some t => if t = 0 then cfg.ttl_seconds else t

/-- CacheManager.set at time now (memory storage): evict the head when at
capacity, then insert with dict-assignment semantics. -/
def CacheManager.set (cm : CacheManager α) (key : String) (value : α)
    (ttl : Option ℚ) (now : ℚ) : CacheManager α :=
  if !cm.config.enabled then cm
  else
    let cm := if cm.config.max_size ≤ cm.cache.length then cm.evictLru else cm
    let entry : CacheEntry α :=
      { key := key, value := value, created_at := now, accessed_at := now,
        access_count := 0, ttl := resolveTtl ttl cm.config }
    { cm with cache := alistSet cm.cache key entry }

/-! ## Metrics collector — src/monitoring/metrics_collector.py -/

/-- MetricType. -/
inductive MetricType
  | counter
  | gauge
  | histogram
  | timer
  deriving Repr, DecidableEq

/-- One metric sample. -/
structure Metric where
  name : String
  mtype : MetricType
  value : ℚ
  timestamp : ℚ
  tags : List (String × String)
  deriving Repr, DecidableEq

/-- MetricsCollector state (the summaries field of the source is written
by no code path and is omitted). -/
structure MetricsCollector where
  window_size : ℚ := 300
  max_samples : ℕ := 1000
  metrics : List (String × List Metric)
  counters : List (String × ℚ)
  gauges : List (String × ℚ)
  deriving Repr, DecidableEq

/-- MetricsCollector.__init__. -/
def MetricsCollector.mk0 (window_size : ℚ := 300) (max_samples : ℕ := 1000) :
    MetricsCollector :=
  { window_size := window_size, max_samples := max_samples,
    metrics := [], counters := [], gauges := [] }

/-- Append on a deque with maxlen max_samples: when full, the oldest
sample drops off the left end. -/
def dequeAppend (l : List Metric) (m : Metric) (maxlen : ℕ) : List Metric :=
  let l := l ++ [m]
  if maxlen < l.length then l.drop (l.length - maxlen) else l

/-- MetricsCollector.record_timer at time now. -/
def MetricsCollector.recordTimer (mc : MetricsCollector) (name : String)
    (duration : ℚ) (tags : List (String × String)) (now : ℚ) :
    MetricsCollector :=
  let m : Metric := { name := name, mtype := .timer, value := duration,
                      timestamp := now, tags := tags }
  let l := dequeAppend ((alistGet mc.metrics name).getD []) m mc.max_samples
  { mc with metrics := alistSet mc.metrics name l }

/-- MetricsCollector._tags_match: an empty filter matches everything; a
nonempty filter requires every filter pair to be present in the metric
tags. -/
def tagsMatch (metric_tags : List (String × String))
    (filter_tags : List (String × String)) : Bool :=
  filter_tags.all (fun p => alistGet metric_tags p.1 == some p.2)

/-- Python min over a nonempty list (0 on the empty list, unreached). -/
def pyMin (l : List ℚ) : ℚ :=
  match l with
  | [] => 0
  | x :: xs => xs.foldl min x

/-- Python max over a nonempty list (0 on the empty list, unreached). -/
def pyMax (l : List ℚ) : ℚ :=
  match l with
  | [] => 0
  | x :: xs => xs.foldl max x

/-- statistics.median over an already sorted nonempty list. -/
def medianOfSorted (s : List ℚ) : ℚ :=
  let n := s.length
  if n % 2 = 1 then s.getD (n / 2) 0
  else (s.getD (n / 2 - 1) 0 + s.getD (n / 2) 0) / 2

/-- MetricsCollector._percentile over an ascending list: index at the
integer part of len * p, clamped to the last index. The int() truncation
of the source agrees with the floor for the nonnegative percentiles it is
called with (0.95 and 0.99). -/
def percentileOfSorted (sorted_values : List ℚ) (p : ℚ) : ℚ :=
  if sorted_values.isEmpty then 0
  else
    let index := (⌊(sorted_values.length : ℚ) * p⌋).toNat
    let index := if sorted_values.length ≤ index
                 then sorted_values.length - 1 else index
    sorted_values.getD index 0

/-- MetricSummary. -/
structure MetricSummary where
  name : String
  count : ℕ
  sum : ℚ
  min : ℚ
  max : ℚ
  mean : ℚ
  median : ℚ
  p95 : ℚ
  p99 : ℚ
  tags : List (String × String)
  deriving Repr, DecidableEq

/-- MetricsCollector.get_metric_summary at time now: filter the samples of
the window matching the tag filter, sort ascending, aggregate. The Python
list.sort is an ascending stable sort, List.insertionSort here. -/
def MetricsCollector.getMetricSummary (mc : MetricsCollector) (name : String)
    (tags : List (String × String)) (now : ℚ) : Option MetricSummary :=
  let window_start := now - mc.window_size
  let recent := ((alistGet mc.metrics name).getD []).filter
    (fun m => window_start ≤ m.timestamp && tagsMatch m.tags tags)
  if recent.isEmpty then none
  else
    let values := (recent.map Metric.value).insertionSort (· ≤ ·)
    some
      { name := name
        count := values.length
        sum := values.sum
        min := pyMin values
        max := pyMax values
        mean := values.sum / values.length
        median := medianOfSorted values
        p95 := percentileOfSorted values (95 / 100)
        p99 := percentileOfSorted values (99 / 100)
        tags := tags }

/-! ## Chat handler — src/handlers/chat.py

The handler orchestrates injected dependencies: the adapters, the model
router, and the cache manager. Message payloads and adapter results are
opaque to the handler, so they are type parameters here; the injected
components are records of pure functions (their internal mutations are
reported back through the trace fields of the outcome). -/

/-- One model adapter as the handler sees it: adapter.chat applied to the
messages, the selected model, and the pass-through parameters, either
returning a result or raising (the string is str(exception)). -/
structure ChatAdapter (Msg PV Val : Type) where
  chat : List Msg → String → List (String × PV) → Except String Val

/-- The model router interface used by handle_chat: select_model (which
may raise) and get_fallback_model; record_success and record_failure are
mutations and appear in the handler outcome trace. -/
structure ChatRouter (Msg : Type) where
  select_model : List Msg → Option String →
    List (String × String) → Except String (String × String)
  get_fallback_model : String → Option (String × String)

/-- The response dict shapes handle_chat returns, one constructor per
return site. -/
inductive ChatResp (Val : Type)
  | errorResp (error : String)
  | successCached (data : Val)
  | streamingMarker (adapter_name : String) (model : String)
  | success (data : Val) (adapter_name : String)
  | successFallback (data : Val) (adapter_name : String)
      (original_model : String)
  deriving Repr, DecidableEq

/-- The full observable outcome of one handle_chat call: the returned
dict, the models recorded as failed and as succeeded with the router, and
the cache writes performed. -/
structure ChatOutcome (Val : Type) where
  response : ChatResp Val
  recorded_failures : List String
  recorded_successes : List String
  cache_sets : List (String × Val)
  deriving Repr, DecidableEq

/-- The request parameter dict as handle_chat reads it: params.get on
messages, model and stream, with everything else passed through to the
adapter. -/
structure ChatParams (Msg PV : Type) where
  messages : List Msg
  model : Option String
  stream : Bool
  rest : List (String × PV)

/-- ChatHandler._select_adapter fused with _get_adapter_name: the source
picks the adapter object by name patterns and then recovers its dict key
by identity; this model resolves the dict key directly by the same
patterns. -/
def selectAdapterName {Msg PV Val : Type}
    (adapters : List (String × ChatAdapter Msg PV Val)) (model : String) :
    Option String :=
  let hasKey (k : String) : Option String :=
    if (alistGet adapters k).isSome then some k else none
  if model.contains (Char.ofNat 47) then hasKey "openrouter"
  else if model.contains (Char.ofNat 58) ||
      ["llama2", "codellama", "mistral", "mixtral", "gemma", "qwen"].contains
        model then hasKey "ollama"
  else if model.startsWith "gpt" || model.startsWith "dall-e" ||
      model == "whisper-1" then hasKey "openai"
  else if model.startsWith "claude" then hasKey "anthropic"
  else if model.startsWith "gemini" then hasKey "google"
  else if (alistGet adapters "ollama").isSome then hasKey "ollama"
  else hasKey "openai"

/-- A handler outcome with an empty mutation trace. -/
def noTrace {Val : Type} (r : ChatResp Val) : ChatOutcome Val :=
  ChatOutcome.mk r [] [] []

/-- The part of handle_chat from the adapter-presence check onward: the
streaming marker return, the adapter invocation, success recording and
cache write, and on adapter failure the router fallback path, where a
fallback failure or absence reports the original adapter error. -/
def handleChatInvoke {Msg PV Val : Type}
    (adapters : List (String × ChatAdapter Msg PV Val))
    (router : Option (ChatRouter Msg)) (cache_key : Option String)
    (params : ChatParams Msg PV) (adapterOpt : Option (ChatAdapter Msg PV Val))
    (aname : String) (model : String) : ChatOutcome Val :=
  match adapterOpt with
  | none => noTrace (.errorResp ("No adapter available for model: " ++ model))
  | some adapter =>
      if params.stream then noTrace (.streamingMarker aname model)
      else
        match adapter.chat params.messages model params.rest with
        | .ok result =>
            { response := .success result aname
              recorded_failures := []
              recorded_successes := if router.isSome then [model] else []
              cache_sets :=
                match cache_key with
                | some k => [(k, result)]
                | none => [] }
        | .error adapter_error =>
            match router with
            | none => noTrace (.errorResp adapter_error)
            | some r =>
                let failed : List String := [model]
                match r.get_fallback_model model with
                | some (fallback_model, fallback_name) =>
                    (match alistGet adapters fallback_name with
                     | some fallback_adapter =>
                         (match fallback_adapter.chat params.messages
                             fallback_model params.rest with
                          | .ok res =>
                              { response :=
                                  .successFallback res fallback_name model
                                recorded_failures := failed
                                recorded_successes := []
                                cache_sets := [] }
                          | .error _ =>
                              { response := .errorResp adapter_error
                                recorded_failures := failed
                                recorded_successes := []
                                cache_sets := [] })
                     | none =>
                         { response := .errorResp adapter_error
                           recorded_failures := failed
                           recorded_successes := []
                           cache_sets := [] })
                | none =>
                    { response := .errorResp adapter_error
                      recorded_failures := failed
                      recorded_successes := []
                      cache_sets := [] }

/-- The model/adapter selection step of handle_chat: the router when
attached (select_model may raise, landing in the outer except), else the
legacy name-pattern resolution. -/
def handleChatSelect {Msg PV Val : Type}
    (adapters : List (String × ChatAdapter Msg PV Val))
    (router : Option (ChatRouter Msg)) (cache_key : Option String)
    (params : ChatParams Msg PV) (metadata : List (String × String)) :
    ChatOutcome Val :=
  match router with
  | some r =>
      match r.select_model params.messages params.model metadata with
      | .error e => noTrace (.errorResp e)
      | .ok (model, aname) =>
          handleChatInvoke adapters router cache_key params
            (alistGet adapters aname) aname model
  | none =>
      let model := params.model.getD "gpt-3.5-turbo"
      match selectAdapterName adapters model with
      | some aname =>
          handleChatInvoke adapters router cache_key params
            (alistGet adapters aname) aname model
      | none =>
          noTrace (.errorResp ("No adapter available for model: " ++ model))

/-- ChatHandler.handle_chat. The cache manager dependency is an optional
lookup oracle together with the key-derivation function (the pure
_generate_cache_key of the source, opaque here because the payload types
are); cache writes appear in the outcome trace. A cached value is returned
only when truthy in Python; the model treats every stored value as truthy
(no claim stores a falsy payload). -/
def handleChat {Msg PV Val : Type}
    (adapters : List (String × ChatAdapter Msg PV Val))
    (router : Option (ChatRouter Msg))
    (cacheGet : Option (String → Option Val))
    (keyFn : List Msg → Option String → List (String × PV) → String)
    (params : ChatParams Msg PV) (metadata : List (String × String)) :
    ChatOutcome Val :=
  if params.messages.isEmpty then
    noTrace (.errorResp "No messages provided")
  else
    let cache_key : Option String :=
      match cacheGet, params.stream with
      | some _, false => some (keyFn params.messages params.model params.rest)
      | _, _ => none
    match cacheGet, cache_key with
    | some get, some k =>
        match get k with
        | some v => noTrace (.successCached v)
        | none => handleChatSelect adapters router cache_key params metadata
    | _, _ => handleChatSelect adapters router cache_key params metadata

/-! ## Bytes, hex digits and UTF-8

The wire protocol and the hashing utilities operate on byte strings,
modelled as lists of naturals below 256. Strings are Lean strings (whose
characters are exactly the unicode scalar values Python strings carry,
lone surrogates aside); str.encode("utf-8") and bytes.decode("utf-8")
are the strict UTF-8 codec. -/

/-- Encode one unicode scalar value as UTF-8 bytes. -/
def utf8EncodeChar (c : ℕ) : List ℕ :=
  if c < 128 then [c]
  else if c < 2048 then [192 + c / 64, 128 + c % 64]
  else if c < 65536 then
    [224 + c / 4096, 128 + (c / 64) % 64, 128 + c % 64]
  else
    [240 + c / 262144, 128 + (c / 4096) % 64, 128 + (c / 64) % 64,
      128 + c % 64]

/-- str.encode("utf-8") on a list of characters. -/
def utf8EncodeChars (cs : List Char) : List ℕ :=
  (cs.map (fun c => utf8EncodeChar c.toNat)).flatten

/-- str.encode("utf-8"). -/
def strBytes (s : String) : List ℕ := utf8EncodeChars s.data

/-- bytes.decode("utf-8"), strict: rejects truncated sequences, stray
continuation bytes, overlong forms, surrogates and values beyond
U+10FFFF, exactly as the strict Python codec does. -/
def utf8DecodeGo : ℕ → List ℕ → Option (List Char)
  | 0, _ => none
  | _ + 1, [] => some []
  | fuel + 1, b :: rest =>
      if b < 128 then (utf8DecodeGo fuel rest).map (Char.ofNat b :: ·)
      else if 194 ≤ b && b < 224 then
        let c1 := rest.headD 0
        if 1 ≤ rest.length && (128 ≤ c1 && c1 < 192) then
          (utf8DecodeGo fuel rest.tail).map
            (Char.ofNat ((b - 192) * 64 + (c1 - 128)) :: ·)
        else none
      else if 224 ≤ b && b < 240 then
        let c1 := rest.headD 0
        let c2 := rest.tail.headD 0
        let cp := (b - 224) * 4096 + (c1 - 128) * 64 + (c2 - 128)
        if 2 ≤ rest.length && (128 ≤ c1 && c1 < 192)
            && (128 ≤ c2 && c2 < 192)
            && 2048 ≤ cp && !(55296 ≤ cp && cp < 57344) then
          (utf8DecodeGo fuel rest.tail.tail).map (Char.ofNat cp :: ·)
        else none
      else if 240 ≤ b && b < 245 then
        let c1 := rest.headD 0
        let c2 := rest.tail.headD 0
        let c3 := rest.tail.tail.headD 0
        let cp := (b - 240) * 262144 + (c1 - 128) * 4096
          + (c2 - 128) * 64 + (c3 - 128)
        if 3 ≤ rest.length && (128 ≤ c1 && c1 < 192)
            && (128 ≤ c2 && c2 < 192) && (128 ≤ c3 && c3 < 192)
            && 65536 ≤ cp && cp < 1114112 then
          (utf8DecodeGo fuel rest.tail.tail.tail).map (Char.ofNat cp :: ·)
        else none
      else none

/-- bytes.decode("utf-8") producing a string. Every decoded character
consumes at least one byte, so the byte count plus one always bounds the
character count and the fuel never runs out on any input. -/
def utf8Decode (bs : List ℕ) : Option String :=
  (utf8DecodeGo (bs.length + 1) bs).map (fun cs => ⟨cs⟩)

/-- Lower-case hex digit for a value below sixteen. -/
def hexDigitChar (n : ℕ) : Char :=
  if n < 10 then Char.ofNat (48 + n) else Char.ofNat (87 + n)

/-! ## SHA-256 — hashlib.sha256 over byte strings -/

/-- Truncation to a 32-bit word. -/
def w32 (x : ℕ) : ℕ := x % 4294967296

/-- 32-bit right rotation. -/
def rotr32 (n x : ℕ) : ℕ := w32 ((x >>> n) ||| (x <<< (32 - n)))

/-- 32-bit complement. -/
def not32 (x : ℕ) : ℕ := 4294967295 ^^^ x

/-- The SHA-256 round constants. -/
def shaK : List ℕ :=
  [1116352408, 1899447441, 3049323471, 3921009573,
   961987163, 1508970993, 2453635748, 2870763221,
   3624381080, 310598401, 607225278, 1426881987,
   1925078388, 2162078206, 2614888103, 3248222580,
   3835390401, 4022224774, 264347078, 604807628,
   770255983, 1249150122, 1555081692, 1996064986,
   2554220882, 2821834349, 2952996808, 3210313671,
   3336571891, 3584528711, 113926993, 338241895,
   666307205, 773529912, 1294757372, 1396182291,
   1695183700, 1986661051, 2177026350, 2456956037,
   2730485921, 2820302411, 3259730800, 3345764771,
   3516065817, 3600352804, 4094571909, 275423344,
   430227734, 506948616, 659060556, 883997877,
   958139571, 1322822218, 1537002063, 1747873779,
   1955562222, 2024104815, 2227730452, 2361852424,
   2428436474, 2756734187, 3204031479, 3329325298]

/-- The SHA-256 initial hash value. -/
def shaH0 : List ℕ :=
  [1779033703, 3144134277, 1013904242, 2773480762,
   1359893119, 2600822924, 528734635, 1541459225]

/-- Big-endian 32-bit word from four bytes. -/
def word32OfBytes : List ℕ → ℕ
  | [b0, b1, b2, b3] => b0 * 16777216 + b1 * 65536 + b2 * 256 + b3
  | _ => 0

/-- The sixteen message-schedule words of one 64-byte block. -/
def shaBlockWords (block : List ℕ) : List ℕ :=
  (List.range 16).map (fun i => word32OfBytes ((block.drop (4 * i)).take 4))

/-- Extension of the message schedule to 64 words. -/
def shaSchedule (block : List ℕ) : List ℕ :=
  (List.range 48).foldl
    (fun w _ =>
      let n := w.length
      let s0x := w.getD (n - 15) 0
      let s1x := w.getD (n - 2) 0
      let s0 := (rotr32 7 s0x) ^^^ (rotr32 18 s0x) ^^^ (s0x >>> 3)
      let s1 := (rotr32 17 s1x) ^^^ (rotr32 19 s1x) ^^^ (s1x >>> 10)
      w ++ [w32 (w.getD (n - 16) 0 + s0 + w.getD (n - 7) 0 + s1)])
    (shaBlockWords block)

/-- One application of the SHA-256 compression function. -/
def shaCompress (h : List ℕ) (block : List ℕ) : List ℕ :=
  let w := shaSchedule block
  let final := (List.range 64).foldl
    (fun (st : List ℕ) i =>
      match st with
      | [a, b, c, d, e, f, g, hh] =>
          let ss1 := (rotr32 6 e) ^^^ (rotr32 11 e) ^^^ (rotr32 25 e)
          let ch := (e &&& f) ^^^ ((not32 e) &&& g)
          let t1 := w32 (hh + ss1 + ch + shaK.getD i 0 + w.getD i 0)
          let ss0 := (rotr32 2 a) ^^^ (rotr32 13 a) ^^^ (rotr32 22 a)
          let maj := (a &&& b) ^^^ (a &&& c) ^^^ (b &&& c)
          let t2 := w32 (ss0 + maj)
          [w32 (t1 + t2), a, b, c, w32 (d + t1), e, f, g]
      | other => other)
    h
  List.zipWith (fun x y => w32 (x + y)) h final

/-- Big-endian eight-byte length field. -/
def be64 (n : ℕ) : List ℕ :=
  [(n >>> 56) % 256, (n >>> 48) % 256, (n >>> 40) % 256, (n >>> 32) % 256,
   (n >>> 24) % 256, (n >>> 16) % 256, (n >>> 8) % 256, n % 256]

/-- SHA-256 padding: a one bit, zeros to 56 mod 64, the bit length. -/
def shaPad (msg : List ℕ) : List ℕ :=
  let l := msg.length
  let zeros := (64 + 56 - ((l + 1) % 64)) % 64
  msg ++ [128] ++ List.replicate zeros 0 ++ be64 (8 * l)

/-- Split a list into 64-byte blocks; the fuel bounds the number of
blocks and is in every use at least the list length. -/
def chunks64Go : ℕ → List ℕ → List (List ℕ)
  | 0, _ => []
  | _, [] => []
  | fuel + 1, l => l.take 64 :: chunks64Go fuel (l.drop 64)

/-- Split a padded message into 64-byte blocks. -/
def chunks64 (l : List ℕ) : List (List ℕ) := chunks64Go l.length l

/-- Big-endian bytes of one 32-bit word. -/
def wordBytes (x : ℕ) : List ℕ :=
  [(x >>> 24) % 256, (x >>> 16) % 256, (x >>> 8) % 256, x % 256]

/-- hashlib.sha256(msg).digest() as 32 bytes. -/
def sha256Bytes (msg : List ℕ) : List ℕ :=
  (((chunks64 (shaPad msg)).foldl shaCompress shaH0).map wordBytes).flatten

/-- hashlib.sha256(msg).hexdigest(). -/
def sha256Hex (msg : List ℕ) : String :=
  ⟨((sha256Bytes msg).map
      (fun b => [hexDigitChar (b / 16), hexDigitChar (b % 16)])).flatten⟩

/-! ## JSON values — the Python data that json.dumps and json.loads move

A JSON value models the Python objects the service serializes: None,
booleans, numbers, strings, lists and dicts. Numbers are exact decimals
(mantissa and decimal places): every int is (m, 0) and every float whose
repr is a plain decimal, which covers all the numbers the claims touch,
is (m, p) with p places after the point; floats with exponent-form repr
fall outside the model. Dicts are association lists in insertion order
with the keys of a well-formed value distinct, as Python dicts guarantee. -/

inductive JVal where
  | jnull
  | jbool (b : Bool)
  | jnum (m : ℤ) (p : ℕ)
  | jstr (s : String)
  | jarr (xs : List JVal)
  | jobj (kvs : List (String × JVal))

/-- The opening brace character. -/
def lbrace : Char := Char.ofNat 123

/-- The closing brace character. -/
def rbrace : Char := Char.ofNat 125

/-- Decimal digits of a natural number, most significant first; the fuel
(always called with at least the number itself plus one) bounds the digit
count. -/
def natDigitsGo : ℕ → ℕ → List Char
  | 0, _ => []
  | fuel + 1, n =>
      if n < 10 then [Char.ofNat (48 + n)]
      else natDigitsGo fuel (n / 10) ++ [Char.ofNat (48 + n % 10)]

/-- Decimal digits of a natural number. -/
def natDigits (n : ℕ) : List Char := natDigitsGo (n + 1) n

/-- Python repr of the exact decimal m / 10^p: sign, integer digits and,
for p positive, a point followed by exactly p fraction digits. -/
def renderNum (m : ℤ) (p : ℕ) : List Char :=
  let a := m.natAbs
  let sign : List Char := if m < 0 then ['-'] else []
  if p = 0 then sign ++ natDigits a
  else
    let fd := natDigits (a % 10 ^ p)
    sign ++ natDigits (a / 10 ^ p)
      ++ '.' :: (List.replicate (p - fd.length) '0' ++ fd)

/-- Four hex digits of a value below 65536. -/
def hex4 (n : ℕ) : List Char :=
  [hexDigitChar (n / 4096 % 16), hexDigitChar (n / 256 % 16),
   hexDigitChar (n / 16 % 16), hexDigitChar (n % 16)]

/-- The escape of one character under json.dumps with ensure_ascii: the
two-character escapes, u-escapes for the other control and all non-ASCII
characters, surrogate pairs beyond U+FFFF, and the character itself for
printable ASCII. -/
def escapeChar (c : ℕ) : List Char :=
  if c = 34 then ['\\', '"']
  else if c = 92 then ['\\', '\\']
  else if c = 8 then ['\\', 'b']
  else if c = 9 then ['\\', 't']
  else if c = 10 then ['\\', 'n']
  else if c = 12 then ['\\', 'f']
  else if c = 13 then ['\\', 'r']
  else if c < 32 then '\\' :: 'u' :: hex4 c
  else if c < 127 then [Char.ofNat c]
  else if c < 65536 then '\\' :: 'u' :: hex4 c
  else
    ('\\' :: 'u' :: hex4 (55296 + (c - 65536) / 1024))
      ++ ('\\' :: 'u' :: hex4 (56320 + (c - 65536) % 1024))

/-- The JSON rendering of a string: quoted, characters escaped. -/
def escapeString (s : String) : List Char :=
  '"' :: (s.data.map (fun c => escapeChar c.toNat)).flatten ++ ['"']

/-- Code-point comparison of character lists (the Python string order). -/
def charsLt : List Char → List Char → Bool
  | [], [] => false
  | [], _ :: _ => true
  | _ :: _, [] => false
  | a :: as, b :: bs =>
      if a.toNat < b.toNat then true
      else if b.toNat < a.toNat then false
      else charsLt as bs

/-- Insertion into a key-sorted pair list (keys in one object are
distinct, so stability questions do not arise). -/
def insertKv (kv : String × JVal) : List (String × JVal) →
    List (String × JVal)
  | [] => [kv]
  | p :: ps =>
      if charsLt kv.1.data p.1.data then kv :: p :: ps else p :: insertKv kv ps

/-- Ascending sort of object members by key (sorted(d.items())). -/
def sortKvs (kvs : List (String × JVal)) : List (String × JVal) :=
  kvs.foldr insertKv []

mutual

/-- Recursively sort every object of a value by key; dumping the sorted
value without sorting is exactly json.dumps with sort_keys. -/
def sortJ : JVal → JVal
  | .jnull => .jnull
  | .jbool b => .jbool b
  | .jnum m p => .jnum m p
  | .jstr s => .jstr s
  | .jarr xs => .jarr (sortL xs)
  | .jobj kvs => .jobj (sortKvs (sortO kvs))

def sortL : List JVal → List JVal
  | [] => []
  | x :: xs => sortJ x :: sortL xs

def sortO : List (String × JVal) → List (String × JVal)
  | [] => []
  | (k, v) :: kvs => (k, sortJ v) :: sortO kvs

end

mutual

/-- json.dumps with the default separators (comma-space and
colon-space) and ensure_ascii, insertion order preserved. -/
def dumpsJ : JVal → List Char
  | .jnull => ['n', 'u', 'l', 'l']
  | .jbool true => ['t', 'r', 'u', 'e']
  | .jbool false => ['f', 'a', 'l', 's', 'e']
  | .jnum m p => renderNum m p
  | .jstr s => escapeString s
  | .jarr [] => ['[', ']']
  | .jarr (x :: xs) => '[' :: (dumpsJ x ++ dumpsA xs) ++ [']']
  | .jobj [] => [lbrace, rbrace]
  | .jobj ((k, v) :: kvs) =>
      lbrace :: (escapeString k ++ ':' :: ' ' :: dumpsJ v ++ dumpsO kvs)
        ++ [rbrace]

/-- The remaining array items, each preceded by comma-space. -/
def dumpsA : List JVal → List Char
  | [] => []
  | x :: xs => ',' :: ' ' :: dumpsJ x ++ dumpsA xs

/-- The remaining object members, each preceded by comma-space. -/
def dumpsO : List (String × JVal) → List Char
  | [] => []
  | (k, v) :: kvs =>
      ',' :: ' ' :: escapeString k ++ ':' :: ' ' :: dumpsJ v ++ dumpsO kvs

end

/-- json.dumps(value, sort_keys) as a string. -/
def dumps (sortKeys : Bool) (v : JVal) : String :=
  ⟨dumpsJ (if sortKeys then sortJ v else v)⟩

/-! ## json.loads — the strict JSON reader

The reader is fuel-indexed (the fuel only bounds nesting of the mutually
recursive entry points and is amply supplied by loads); it implements the
strict grammar Python reads: exact literals, quoted strings with the
escape forms above, plain decimal numbers without leading zeros, arrays
and objects with optional whitespace around structural tokens. Exponent
number forms are outside the decimal number model and are rejected. Lone
surrogate escapes, which CPython tolerates, are unrepresentable in the
string model and are rejected. -/

/-- JSON whitespace. -/
def isWsChar (c : Char) : Bool :=
  c == ' ' || c == '\t' || c == '\n' || c == '\r'

/-- Skip whitespace. -/
def skipWs (cs : List Char) : List Char := cs.dropWhile isWsChar

/-- Value of one hex digit. -/
def hexVal (c : Char) : Option ℕ :=
  if 48 ≤ c.toNat && c.toNat ≤ 57 then some (c.toNat - 48)
  else if 97 ≤ c.toNat && c.toNat ≤ 102 then some (c.toNat - 87)
  else if 65 ≤ c.toNat && c.toNat ≤ 70 then some (c.toNat - 55)
  else none

/-- Value of a four-hex-digit escape. -/
def hex4Val (h1 h2 h3 h4 : Char) : Option ℕ := do
  let a ← hexVal h1
  let b ← hexVal h2
  let c ← hexVal h3
  let d ← hexVal h4
  pure (a * 4096 + b * 256 + c * 16 + d)

/-- The single-character escapes. -/
def unescape (c : Char) : Option Char :=
  if c = '"' then some '"'
  else if c = '\\' then some '\\'
  else if c = '/' then some '/'
  else if c = 'b' then some (Char.ofNat 8)
  else if c = 't' then some '\t'
  else if c = 'n' then some '\n'
  else if c = 'f' then some (Char.ofNat 12)
  else if c = 'r' then some (Char.ofNat 13)
  else none

/-- Read a string body after the opening quote up to the closing quote,
decoding escapes; surrogate pairs combine into one scalar. -/
def parseStrGo : ℕ → List Char → Option (List Char × List Char)
  | 0, _ => none
  | _ + 1, [] => none
  | fuel + 1, c :: rest =>
      if c = '"' then some ([], rest)
      else if c = '\\' then
        match rest with
        | [] => none
        | e :: rest2 =>
            if e = 'u' then
              let h1 := rest2.headD ' '
              let h2 := rest2.tail.headD ' '
              let h3 := rest2.tail.tail.headD ' '
              let h4 := rest2.tail.tail.tail.headD ' '
              let rest3 := rest2.tail.tail.tail.tail
              if 4 ≤ rest2.length then
                match hex4Val h1 h2 h3 h4 with
                | none => none
                | some n =>
                    if 55296 ≤ n && n < 56320 then
                      if rest3.headD ' ' = '\\' && rest3.tail.headD ' ' = 'u'
                          && 6 ≤ rest3.length then
                        let g1 := rest3.tail.tail.headD ' '
                        let g2 := rest3.tail.tail.tail.headD ' '
                        let g3 := rest3.tail.tail.tail.tail.headD ' '
                        let g4 := rest3.tail.tail.tail.tail.tail.headD ' '
                        let rest4 := rest3.tail.tail.tail.tail.tail.tail
                        match hex4Val g1 g2 g3 g4 with
                        | none => none
                        | some n2 =>
                            if 56320 ≤ n2 && n2 < 57344 then
                              (parseStrGo fuel rest4).map (fun x =>
                                (Char.ofNat
                                  (65536 + (n - 55296) * 1024 + (n2 - 56320))
                                  :: x.1, x.2))
                            else none
                      else none
                    else if 56320 ≤ n && n < 57344 then none
                    else (parseStrGo fuel rest3).map (fun x =>
                      (Char.ofNat n :: x.1, x.2))
              else none
            else
              match unescape e with
              | some c2 => (parseStrGo fuel rest2).map (fun x =>
                  (c2 :: x.1, x.2))
              | none => none
      else if c.toNat < 32 then none
      else (parseStrGo fuel rest).map (fun x => (c :: x.1, x.2))

/-- Read a string body after the opening quote: the fuel bounds the
number of decoded characters, each of which consumes at least one input
character, so the input length plus one always suffices. -/
def parseStr (cs : List Char) : Option (List Char × List Char) :=
  parseStrGo (cs.length + 1) cs

/-- Numeric value of a digit list. -/
def digitsToNat (ds : List Char) : ℕ :=
  ds.foldl (fun n c => n * 10 + (c.toNat - 48)) 0

/-- Read a number: optional minus, integer digits without a leading
zero, an optional point with fraction digits. An exponent marker is
outside the decimal model and rejected. -/
def parseNum (cs : List Char) : Option (JVal × List Char) :=
  let neg := cs.headD ' ' == '-'
  let body := if neg then cs.tail else cs
  let ds := body.takeWhile Char.isDigit
  let rest1 := body.dropWhile Char.isDigit
  if ds.isEmpty then none
  else if 1 < ds.length && ds.headD ' ' == '0' then none
  else
    match rest1 with
    | '.' :: r2 =>
        let fs := r2.takeWhile Char.isDigit
        let rest2 := r2.dropWhile Char.isDigit
        if fs.isEmpty then none
        else if rest2.headD ' ' == 'e' || rest2.headD ' ' == 'E' then none
        else
          let a := digitsToNat ds * 10 ^ fs.length + digitsToNat fs
          some (.jnum (if neg then -(a : ℤ) else (a : ℤ))
            fs.length, rest2)
    | 'e' :: _ => none
    | 'E' :: _ => none
    | _ =>
        let a := digitsToNat ds
        some (.jnum (if neg then -(a : ℤ) else (a : ℤ)) 0, rest1)

/-- CPython dict building: repeated keys keep the first position and the
last value. -/
def pyDict (pairs : List (String × JVal)) : List (String × JVal) :=
  pairs.foldl (fun acc kv => alistSet acc kv.1 kv.2) []

mutual

/-- Read one value from input whose leading whitespace is consumed. -/
def parseVal : ℕ → List Char → Option (JVal × List Char)
  | 0, _ => none
  | fuel + 1, cs =>
      match cs with
      | 'n' :: 'u' :: 'l' :: 'l' :: r => some (.jnull, r)
      | 't' :: 'r' :: 'u' :: 'e' :: r => some (.jbool true, r)
      | 'f' :: 'a' :: 'l' :: 's' :: 'e' :: r => some (.jbool false, r)
      | '"' :: r => (parseStr r).map (fun x => (.jstr ⟨x.1⟩, x.2))
      | '[' :: r =>
          (match skipWs r with
           | c2 :: r2 =>
               if c2 = ']' then some (.jarr [], r2)
               else (parseElems fuel (c2 :: r2)).map
                 (fun x => (.jarr x.1, x.2))
           | [] => none)
      | c :: r =>
          if c = lbrace then
            match skipWs r with
            | c2 :: r2 =>
                if c2 = rbrace then some (.jobj [], r2)
                else (parseMembers fuel (c2 :: r2)).map
                  (fun x => (.jobj (pyDict x.1), x.2))
            | [] => none
          else if c = '-' || c.isDigit then parseNum (c :: r)
          else none
      | [] => none

/-- Read the elements of a nonempty array up to the closing bracket. -/
def parseElems : ℕ → List Char → Option (List JVal × List Char)
  | 0, _ => none
  | fuel + 1, cs =>
      match parseVal fuel cs with
      | none => none
      | some (v, r) =>
          match skipWs r with
          | c :: r2 =>
              if c = ',' then
                (parseElems fuel (skipWs r2)).map (fun x => (v :: x.1, x.2))
              else if c = ']' then some ([v], r2)
              else none
          | [] => none

/-- Read the members of a nonempty object up to the closing brace. -/
def parseMembers : ℕ → List Char → Option (List (String × JVal) × List Char)
  | 0, _ => none
  | fuel + 1, cs =>
      match cs with
      | '"' :: r =>
          (match parseStr r with
           | none => none
           | some (k, r1) =>
              match skipWs r1 with
              | c1 :: r2 =>
                  if c1 = ':' then
                    match parseVal fuel (skipWs r2) with
                    | none => none
                    | some (v, r3) =>
                        match skipWs r3 with
                        | c :: r4 =>
                            if c = ',' then
                              (parseMembers fuel (skipWs r4)).map
                                (fun x => ((⟨k⟩, v) :: x.1, x.2))
                            else if c = rbrace then some ([(⟨k⟩, v)], r4)
                            else none
                        | [] => none
                  else none
              | [] => none)
      | _ => none

end

/-- json.loads: read one value surrounded by nothing but whitespace. -/
def loads (s : String) : Option JVal :=
  match parseVal (s.data.length + 1) (skipWs s.data) with
  | some (v, rest) => if (skipWs rest).isEmpty then some v else none
  | none => none

/-! ## Well-formedness: what Python dicts guarantee

A value produced from live Python data has distinct keys in every dict,
recursively; the round-trip theorems assume exactly that. -/

mutual

/-- Every object of the value has distinct keys. -/
def wfJ : JVal → Prop
  | .jnull => True
  | .jbool _ => True
  | .jnum _ _ => True
  | .jstr _ => True
  | .jarr xs => wfL xs
  | .jobj kvs => (kvs.map Prod.fst).Nodup ∧ wfO kvs

def wfL : List JVal → Prop
  | [] => True
  | x :: xs => wfJ x ∧ wfL xs

def wfO : List (String × JVal) → Prop
  | [] => True
  | (_, v) :: kvs => wfJ v ∧ wfO kvs

end

mutual

/-- Fuel needed by parseVal on the rendering of a value. -/
def needV : JVal → ℕ
  | .jnull => 1
  | .jbool _ => 1
  | .jnum _ _ => 1
  | .jstr _ => 1
  | .jarr xs => 1 + needI xs
  | .jobj kvs => 1 + needM kvs

/-- Fuel needed by parseElems on a rendered item list. -/
def needI : List JVal → ℕ
  | [] => 0
  | x :: xs => 1 + needV x + needI xs

/-- Fuel needed by parseMembers on a rendered member list. -/
def needM : List (String × JVal) → ℕ
  | [] => 0
  | (_, v) :: kvs => 1 + needV v + needM kvs

end

/-- The continuation after a rendered number never extends the number:
its first character, if any, is not a digit, point or exponent marker.
Every continuation inside a rendering (comma, bracket, brace) and the
empty top level satisfy this. -/
def sepOk (rest : List Char) : Prop :=
  match rest with
  | [] => True
  | c :: _ => c.isDigit = false ∧ c ≠ '.' ∧ c ≠ 'e' ∧ c ≠ 'E'

/-! ## Cache key derivation — src/cache/cache_key.py -/

/-- generate_cache_key: the canonical dict of model, messages and the
three sampling parameters read from the keyword arguments (temperature
defaulting to 0.7, max_tokens and top_p defaulting to None), dumped as
JSON with sorted keys and ASCII escaping, hashed with SHA-256. -/
def generateCacheKey (model : String) (messages : List JVal)
    (kwargs : List (String × JVal)) : String :=
  let cache_data := JVal.jobj
    [("model", .jstr model),
     ("messages", .jarr messages),
     ("temperature", (alistGet kwargs "temperature").getD (.jnum 7 1)),
     ("max_tokens", (alistGet kwargs "max_tokens").getD .jnull),
     ("top_p", (alistGet kwargs "top_p").getD .jnull)]
  sha256Hex (strBytes (dumps true cache_data))

/-! ## IPC wire protocol — src/ipc/protocol.py -/

/-- The message types, with their wire bytes. -/
inductive MessageType where
  | request
  | response
  | register
  | heartbeat
  | errorMsg
  deriving Repr, DecidableEq

/-- The wire byte of a message type. -/
def MessageType.toByte : MessageType → ℕ
  | .request => 1
  | .response => 2
  | .register => 3
  | .heartbeat => 4
  | .errorMsg => 5

/-- MessageType(x): the enum lookup raises on an unknown byte. -/
def MessageType.ofByte : ℕ → Option MessageType
  | 1 => some .request
  | 2 => some .response
  | 3 => some .register
  | 4 => some .heartbeat
  | 5 => some .errorMsg
  | _ => none

/-- The data payload of a message, per the Union annotation of the
source: a dict (JSON object members), a string, or raw bytes. A decode
whose JSON parse yields any other value leaves the annotated type and is
rejected by the model. -/
inductive MsgData where
  | dict (kvs : List (String × JVal))
  | str (s : String)
  | bytes (bs : List ℕ)

/-- The IPC message envelope. -/
structure Message where
  msg_type : MessageType
  id : String
  service : String
  method : String
  data : MsgData
  metadata : List (String × String)

/-- struct.pack of an unsigned little-endian 32-bit length; raises
(none) when the value overflows the field. -/
def packU32 (n : ℕ) : Option (List ℕ) :=
  if n < 4294967296 then
    some [n % 256, n / 256 % 256, n / 65536 % 256, n / 16777216 % 256]
  else none

/-- A length-prefixed byte segment. -/
def lenPrefixed (bs : List ℕ) : Option (List ℕ) :=
  (packU32 bs.length).map (· ++ bs)

/-- The data payload as bytes: a dict is dumped as JSON and UTF-8
encoded, a string UTF-8 encoded, bytes pass through. -/
def MsgData.toBytes : MsgData → List ℕ
  | .dict kvs => strBytes (dumps false (.jobj kvs))
  | .str s => strBytes s
  | .bytes bs => bs

/-- encode_message: the length-prefixed frame around the type byte and
the five length-prefixed fields id, service, method, metadata (a JSON
object) and data. -/
def encodeMessage (msg : Message) : Option (List ℕ) := do
  let p1 ← lenPrefixed (strBytes msg.id)
  let p2 ← lenPrefixed (strBytes msg.service)
  let p3 ← lenPrefixed (strBytes msg.method)
  let p4 ← lenPrefixed (strBytes (dumps false
    (.jobj (msg.metadata.map (fun kv => (kv.1, .jstr kv.2))))))
  let p5 ← lenPrefixed msg.data.toBytes
  let content := msg.msg_type.toByte :: (p1 ++ p2 ++ p3 ++ p4 ++ p5)
  let hdr ← packU32 content.length
  pure (hdr ++ content)

/-- struct.unpack of a little-endian u32, requiring four bytes. -/
def readU32 : List ℕ → Option (ℕ × List ℕ)
  | b0 :: b1 :: b2 :: b3 :: rest =>
      some (b0 + 256 * b1 + 65536 * b2 + 16777216 * b3, rest)
  | _ => none

/-- Read one length-prefixed UTF-8 string field (Python slicing is
lenient, taking at most the requested bytes; a decode failure raises). -/
def readStrField (bs : List ℕ) : Option (String × List ℕ) := do
  let (n, rest) ← readU32 bs
  let s ← utf8Decode (rest.take n)
  pure (s, rest.drop n)

/-- A JSON object whose values are all strings, as a string map; any
other shape leaves the Dict annotation of the metadata field. -/
def asStrMap : JVal → Option (List (String × String))
  | .jobj kvs => kvs.foldr
      (fun kv acc => match kv.2, acc with
        | .jstr v, some l => some ((kv.1, v) :: l)
        | _, _ => none) (some [])
  | _ => none

/-- decode_message over the frame content (after the length header):
type byte, four length-prefixed text fields, then the data payload,
which is parsed as JSON when possible and kept as bytes otherwise. -/
def decodeMessage (data : List ℕ) : Option Message := do
  let mtByte ← data.head?
  let mt ← MessageType.ofByte mtByte
  let (msgId, rest) ← readStrField data.tail
  let (service, rest) ← readStrField rest
  let (method, rest) ← readStrField rest
  let (mdLen, rest) ← readU32 rest
  let mdStr ← utf8Decode (rest.take mdLen)
  let metadata ←
    if mdStr.isEmpty then pure [] else do
      let v ← loads mdStr
      asStrMap v
  let rest := rest.drop mdLen
  let (dataLen, rest) ← readU32 rest
  let dataBytes := rest.take dataLen
  let dataVal ←
    match utf8Decode dataBytes with
    | none => some (MsgData.bytes dataBytes)
    | some s =>
        match loads s with
        | none => some (MsgData.bytes dataBytes)
        | some (.jobj kvs) => some (MsgData.dict kvs)
        | some (.jstr s2) => some (MsgData.str s2)
        | some _ => none
  pure { msg_type := mt, id := msgId, service := service, method := method,
         data := dataVal, metadata := metadata }

/-! ## Concrete scenario instances named by the testable properties -/

/-- The two-entry cache configuration of the LRU scenario. -/
def cacheCfg2 : CacheConfig := { enabled := true, max_size := 2, ttl_seconds := 3600 }

/-- The cache after set A, set B, set C on a two-entry cache. -/
def cacheScenario : CacheManager String :=
  (((CacheManager.mk0 cacheCfg2).set "A" "va" none 0).set
    "B" "vb" none 1).set "C" "vc" none 2

/-- First scenario read: get A (a miss). -/
def cacheGetA : Option String × CacheManager String := cacheScenario.get "A" 3

/-- Second scenario read: get B (a hit). -/
def cacheGetB : Option String × CacheManager String := cacheGetA.2.get "B" 3

/-- Third scenario read: get C (a hit). -/
def cacheGetC : Option String × CacheManager String := cacheGetB.2.get "C" 3

/-- The open-breaker map used to exercise the retry wrapper. -/
def openBreakers : List (String × CircuitBreaker) :=
  [("svc", { failure_threshold := 5, recovery_timeout := 60,
             failure_count := 5, last_failure_time := some 0,
             state := .opened })]

/-- A wrapped operation that always succeeds, beneath an open breaker. -/
def openBreakerRun : RetryRun String :=
  withRetry {} (some "svc") openBreakers
    (fun _ => FOutcome.ok "v") (fun i => (i : ℚ))

/-- A wrapped operation that raises a validation error at once. -/
def validationRun : RetryRun String :=
  withRetry {} none [] (fun _ => FOutcome.raise (.validationErr "bad"))
    (fun _ => 0)

/-- Ten timer samples 1..10 recorded at time 100 for metric m. -/
def metricsScenario : MetricsCollector :=
  ([1, 2, 3, 4, 5, 6, 7, 8, 9, 10] : List ℚ).foldl
    (fun mc v => mc.recordTimer "m" v [] 100) (MetricsCollector.mk0 300 1000)

/-- Two concrete adapters: a1 always raises, a2 always succeeds. -/
def chatAdapters : List (String × ChatAdapter String String String) :=
  [("a1", ⟨fun _ _ _ => Except.error "boom"⟩),
   ("a2", ⟨fun _ _ _ => Except.ok "data"⟩)]

/-- A concrete router: selects m1 on a1 and falls back to m2 on a2. -/
def chatRouterX : ChatRouter String :=
  ⟨fun _ _ _ => Except.ok ("m1", "a1"), fun _ => some ("m2", "a2")⟩

/-- A concrete non-streaming chat request. -/
def chatParamsX : ChatParams String String := ⟨["hi"], some "m1", false, []⟩

/-- The user message of the cache-key scenario. -/
def hiMessage : JVal :=
  .jobj [("role", .jstr "user"), ("content", .jstr "hi")]

/-- A concrete request message with a dict payload and non-empty
metadata, exercising the wire protocol. -/
def msgC : Message :=
  { msg_type := .request, id := "1", service := "s", method := "m",
    data := .dict [("k", .jstr "v")], metadata := [("a", "b")] }

/-- The frame encode_message produces for that message. -/
def bsC : List ℕ := (encodeMessage msgC).getD []

/-! ## Validation of the hash model against the FIPS 180-4 test vectors -/

set_option maxRecDepth 10000 in
theorem sha256Hex_empty_vector :
    sha256Hex [] =
      "e3b0c44298fc1c149afbf4c8996fb92427ae41e4649b934ca495991b7852b855" := by
  decide

set_option maxRecDepth 10000 in
theorem sha256Hex_abc_vector :
    sha256Hex (strBytes "abc") =
      "ba7816bf8f01cfea414140de5dae2223b00361a396177a9cb410ff61f20015ad" := by
  decide

/-! ## Validation of the serializer model: concrete digests and parses -/

set_option maxRecDepth 40000 in
theorem generateCacheKey_hi_temperature07 :
    generateCacheKey "m" [hiMessage] [("temperature", .jnum 7 1)] =
      "bfe58788a84cb89dc187624fa1817e2399afacbd935771ad6929fb500d7a372b" := by
  decide

set_option maxRecDepth 40000 in
theorem generateCacheKey_hi_temperature08 :
    generateCacheKey "m" [hiMessage] [("temperature", .jnum 8 1)] =
      "fa5ee2cd93465215a31e748ee974be234d40ae9c658bd9015016fd060f86d8ec" := by
  decide

/-! ## Theorems: association-list helper lemmas -/

theorem alistGet_alistSet_self {α : Type} (l : List (String × α)) (k : String)
    (v : α) : alistGet (alistSet l k v) k = some v := by
  induction l with
  | nil => simp [alistSet, alistGet]
  | cons p rest ih =>
      obtain ⟨k0, v0⟩ := p
      by_cases h : k0 = k
      · simp [alistSet, alistGet, h]
      · simpa [alistSet, alistGet, h] using ih

theorem alistGet_alistSet_ne {α : Type} (l : List (String × α))
    (k k2 : String) (v : α) (h : k2 ≠ k) :
    alistGet (alistSet l k v) k2 = alistGet l k2 := by
  induction l with
  | nil => simp [alistSet, alistGet, Ne.symm h]
  | cons p rest ih =>
      obtain ⟨k0, v0⟩ := p
      by_cases h0 : k0 = k
      · subst h0
        simp [alistSet, alistGet, Ne.symm h]
      · by_cases h2 : k0 = k2
        · subst h2
          simp [alistSet, alistGet, h0]
        · simpa [alistSet, alistGet, h0, h2] using ih

/-! ## Theorems for claim C3 — token bucket consume semantics -/

/-- Claim C3: a token bucket operation first refills the token count to
min(capacity, tokens + elapsed * rate); consume then reports success and
subtracts exactly when the requested amount is at most the refilled count,
and otherwise reports failure leaving the (refilled) token count
unchanged; concretely, a fresh bucket of capacity 5 and refill rate 5/s
admits consume(5), refuses an immediate consume(1), and admits consume(1)
again one full second later. -/
theorem tokenBucket_consume_correct :
    (∀ (b : TokenBucket) (n now : ℚ),
      ((b.refill now).tokens
          = min b.capacity (b.tokens + (now - b.last_refill) * b.refill_rate))
      ∧ ((b.consume n now).1 = true ↔ n ≤ (b.refill now).tokens)
      ∧ (n ≤ (b.refill now).tokens →
          (b.consume n now).2.tokens = (b.refill now).tokens - n)
      ∧ (¬ n ≤ (b.refill now).tokens →
          (b.consume n now).2.tokens = (b.refill now).tokens))
    ∧ ((TokenBucket.mk0 5 5 0).consume 5 0).1 = true
    ∧ (((TokenBucket.mk0 5 5 0).consume 5 0).2.consume 1 0).1 = false
    ∧ ((((TokenBucket.mk0 5 5 0).consume 5 0).2.consume 1 0).2.consume 1 1).1
        = true := by
  refine ⟨fun b n now => ⟨rfl, ?_, ?_, ?_⟩,
    by norm_num [TokenBucket.mk0, TokenBucket.consume, TokenBucket.refill],
    by norm_num [TokenBucket.mk0, TokenBucket.consume, TokenBucket.refill],
    by norm_num [TokenBucket.mk0, TokenBucket.consume, TokenBucket.refill]⟩
  · simp only [TokenBucket.consume]
    split <;> simp_all
  · intro h
    simp only [TokenBucket.consume]
    split <;> simp_all
  · intro h
    simp only [TokenBucket.consume]
    split <;> simp_all

/-- Witness for C3: a failing consume leaves the refilled token count in
place. -/
theorem tokenBucket_consume_correct_witness :
    (¬ (6 : ℚ) ≤ ((TokenBucket.mk0 5 5 0).refill 0).tokens)
    ∧ ((TokenBucket.mk0 5 5 0).consume 6 0).2.tokens
        = ((TokenBucket.mk0 5 5 0).refill 0).tokens := by
  have hv : ((TokenBucket.mk0 5 5 0).refill 0).tokens = 5 := by
    norm_num [TokenBucket.mk0, TokenBucket.refill]
  have hn : ¬ (6 : ℚ) ≤ ((TokenBucket.mk0 5 5 0).refill 0).tokens := by
    rw [hv]; norm_num
  exact ⟨hn,
    (tokenBucket_consume_correct.1 (TokenBucket.mk0 5 5 0) 6 0).2.2.2 hn⟩

/-! ## Theorems for claim C5 — circuit breaker state machine -/

/-- Preservation of the breaker invariant by one interaction: the
threshold never changes, and any non-closed state carries at least the
threshold of recorded failures. -/
theorem circuitBreaker_step_invariant (cb : CircuitBreaker) (op : CBOp)
    (h : cb.state ≠ .closed → cb.failure_threshold ≤ cb.failure_count) :
    (cb.step op).failure_threshold = cb.failure_threshold
    ∧ ((cb.step op).state ≠ .closed →
        (cb.step op).failure_threshold ≤ (cb.step op).failure_count) := by
  cases op with
  | success => simp [CircuitBreaker.step, CircuitBreaker.recordSuccess]
  | failure now =>
      have e : cb.step (.failure now) = cb.recordFailure now := rfl
      rw [e]
      unfold CircuitBreaker.recordFailure
      by_cases hcond : cb.failure_threshold ≤ cb.failure_count + 1
      · rw [if_pos hcond]
        exact ⟨rfl, fun _ => hcond⟩
      · rw [if_neg hcond]
        exact ⟨rfl, fun hs => le_trans (h hs) (Nat.le_succ _)⟩
  | attempt now =>
      simp only [CircuitBreaker.step, CircuitBreaker.canAttempt]
      rcases hs : cb.state with _ | _ | _ <;> simp
      · intro h2
        exact absurd hs h2
      · split
        · simpa using h (by simp [hs])
        · simpa [hs] using h
      · simpa [hs] using h

/-- The breaker invariant holds in every state reachable from
construction. -/
theorem circuitBreaker_run_invariant (thr : ℕ) (rt : ℚ) (ops : List CBOp) :
    ((CircuitBreaker.mk0 thr rt).run ops).failure_threshold = thr
    ∧ (((CircuitBreaker.mk0 thr rt).run ops).state ≠ .closed →
        thr ≤ ((CircuitBreaker.mk0 thr rt).run ops).failure_count) := by
  suffices h : ∀ (cb : CircuitBreaker),
      cb.failure_threshold = thr →
      (cb.state ≠ .closed → thr ≤ cb.failure_count) →
      (cb.run ops).failure_threshold = thr
      ∧ ((cb.run ops).state ≠ .closed → thr ≤ (cb.run ops).failure_count) by
    exact h _ rfl (by simp [CircuitBreaker.mk0])
  induction ops with
  | nil => intro cb h1 h2; exact ⟨h1, h2⟩
  | cons op rest ih =>
      intro cb h1 h2
      have hstep := circuitBreaker_step_invariant cb op (h1 ▸ h2)
      refine ih (cb.step op) (hstep.1.trans h1) (fun hs => ?_)
      have hle := hstep.2 hs
      rwa [hstep.1, h1] at hle

/-- Claim C5: the circuit breaker starts closed with zero failures;
reaching the failure threshold opens it; while open, can_attempt refuses
until recovery_timeout has elapsed since the last failure and then lets
the next attempt through, moving to half-open; a recorded success in any
state closes it and zeroes the count; and in every reachable half-open
state a recorded failure reopens it. -/
theorem circuitBreaker_state_machine :
    (∀ (thr : ℕ) (rt : ℚ),
        (CircuitBreaker.mk0 thr rt).state = .closed
        ∧ (CircuitBreaker.mk0 thr rt).failure_count = 0)
    ∧ (∀ (cb : CircuitBreaker) (now : ℚ),
        cb.failure_threshold ≤ cb.failure_count + 1 →
        (cb.recordFailure now).state = .opened)
    ∧ (∀ (cb : CircuitBreaker) (now lf : ℚ),
        cb.state = .opened → cb.last_failure_time = some lf →
        now - lf < cb.recovery_timeout →
        (cb.canAttempt now).1 = false ∧ (cb.canAttempt now).2 = cb)
    ∧ (∀ (cb : CircuitBreaker) (now lf : ℚ),
        cb.state = .opened → cb.last_failure_time = some lf →
        cb.recovery_timeout ≤ now - lf →
        (cb.canAttempt now).1 = true
        ∧ (cb.canAttempt now).2.state = .halfOpen)
    ∧ (∀ cb : CircuitBreaker,
        cb.recordSuccess.state = .closed ∧ cb.recordSuccess.failure_count = 0)
    ∧ (∀ (thr : ℕ) (rt : ℚ) (ops : List CBOp) (now : ℚ),
        ((CircuitBreaker.mk0 thr rt).run ops).state = .halfOpen →
        (((CircuitBreaker.mk0 thr rt).run ops).recordFailure now).state
          = .opened) := by
  refine ⟨fun thr rt => ⟨rfl, rfl⟩, ?_, ?_, ?_, fun cb => ⟨rfl, rfl⟩, ?_⟩
  · intro cb now h
    simp [CircuitBreaker.recordFailure, h]
  · intro cb now lf hs hl ht
    simp [CircuitBreaker.canAttempt, hs, hl, not_le.2 ht]
  · intro cb now lf hs hl ht
    simp [CircuitBreaker.canAttempt, hs, hl, ht]
  · intro thr rt ops now hs
    have hinv := circuitBreaker_run_invariant thr rt ops
    have hcount : thr ≤ ((CircuitBreaker.mk0 thr rt).run ops).failure_count :=
      hinv.2 (by simp [hs])
    simp only [CircuitBreaker.recordFailure]
    rw [if_pos (by omega)]

/-- Witness for C5: after five failures and a post-timeout attempt, the
breaker is half-open and one more failure reopens it. -/
theorem circuitBreaker_state_machine_witness :
    ((CircuitBreaker.mk0 5 60).run
        [.failure 0, .failure 0, .failure 0, .failure 0, .failure 0,
          .attempt 100]).state = .halfOpen
    ∧ (((CircuitBreaker.mk0 5 60).run
        [.failure 0, .failure 0, .failure 0, .failure 0, .failure 0,
          .attempt 100]).recordFailure 100).state = .opened := by
  have hhalf : ((CircuitBreaker.mk0 5 60).run
      [.failure 0, .failure 0, .failure 0, .failure 0, .failure 0,
        .attempt 100]).state = .halfOpen := by
    norm_num [CircuitBreaker.mk0, CircuitBreaker.run, CircuitBreaker.step,
      CircuitBreaker.recordFailure, CircuitBreaker.canAttempt]
  exact ⟨hhalf,
    circuitBreaker_state_machine.2.2.2.2.2 5 60
      [.failure 0, .failure 0, .failure 0, .failure 0, .failure 0,
        .attempt 100] 100 hhalf⟩

/-! ## Theorems for claims C4 and C10 — rate limiter check order -/

/-- Refilling twice at the same instant is the same as refilling once. -/
theorem tokenBucket_refill_refill (b : TokenBucket) (now : ℚ) :
    (b.refill now).refill now = b.refill now := by
  simp [TokenBucket.refill, ← min_assoc, min_self]

/-- After a failed consume, get_wait_time at the same instant reports the
deficit of the refilled bucket. -/
theorem tokenBucket_getWaitTime_after_fail (b : TokenBucket) (n now : ℚ)
    (h : ¬ n ≤ (b.refill now).tokens) :
    ((b.consume n now).2.getWaitTime n now).1
      = some ((n - (b.refill now).tokens) / b.refill_rate) := by
  have hc : (b.consume n now).2 = b.refill now := by
    simp [TokenBucket.consume, h]
  rw [hc]
  simp [TokenBucket.getWaitTime, tokenBucket_refill_refill, h]
  simp [TokenBucket.refill]

/-- A failed consume means the request exceeded the refilled count. -/
theorem tokenBucket_consume_fst_false (b : TokenBucket) (n now : ℚ) :
    (b.consume n now).1 = false ↔ ¬ n ≤ (b.refill now).tokens := by
  simp only [TokenBucket.consume]
  split <;> simp_all

/-- Claim C4: on an enabled limiter, a "high" priority request (with
priority handling enabled) has its token cost divided by the priority
multiplier before any bucket is consulted; the four buckets are evaluated
in the order global-second, global-minute, client-second, client-minute,
short-circuiting on the first rejection with that bucket as the wait-time
source, and (true, none) is returned exactly when all four admit. -/
theorem rateLimiter_checkRateLimit_order (rl : RateLimiter)
    (client_id priority : String) (tokens now : ℚ)
    (hen : rl.config.enabled = true)
    (eff : ℚ) (c1 c2 c3 c4 : Bool × TokenBucket) (res : CheckResult)
    (heff : eff = effectiveTokens rl.config priority tokens)
    (hc1 : c1 = rl.global_second_bucket.consume eff now)
    (hc2 : c2 = rl.global_minute_bucket.consume eff now)
    (hc3 : c3 = ((rl.getClientSecondBucket client_id now).1).consume eff now)
    (hc4 : c4 = ((rl.getClientMinuteBucket client_id now).1).consume eff now)
    (hres : res = rl.checkRateLimit client_id priority tokens now) :
    (rl.config.enable_priority = true → priority = "high" →
        eff = tokens / rl.config.high_priority_multiplier)
    ∧ res.allowed = (c1.1 && c2.1 && c3.1 && c4.1)
    ∧ (res.allowed = true ↔ res.wait_time = none)
    ∧ (c1.1 = false →
        res.wait_time = (c1.2.getWaitTime eff now).1
        ∧ res.reason = some "global_second_limit"
        ∧ res.state.global_minute_bucket = rl.global_minute_bucket
        ∧ res.state.client_second_buckets = rl.client_second_buckets
        ∧ res.state.client_minute_buckets = rl.client_minute_buckets)
    ∧ (c1.1 = true → c2.1 = false →
        res.wait_time = (c2.2.getWaitTime eff now).1
        ∧ res.reason = some "global_minute_limit"
        ∧ res.state.client_second_buckets = rl.client_second_buckets
        ∧ res.state.client_minute_buckets = rl.client_minute_buckets)
    ∧ (c1.1 = true → c2.1 = true → c3.1 = false →
        res.wait_time = (c3.2.getWaitTime eff now).1
        ∧ res.reason = some "client_second_limit"
        ∧ res.state.client_minute_buckets = rl.client_minute_buckets)
    ∧ (c1.1 = true → c2.1 = true → c3.1 = true → c4.1 = false →
        res.wait_time = (c4.2.getWaitTime eff now).1
        ∧ res.reason = some "client_minute_limit")
    ∧ (c1.1 = true → c2.1 = true → c3.1 = true → c4.1 = true →
        res.allowed = true ∧ res.wait_time = none ∧ res.reason = none) := by
  subst heff hc1 hc2 hc3 hc4 hres
  refine ⟨fun hp hh => by simp [effectiveTokens, hp, hh], ?_⟩
  simp only [RateLimiter.checkRateLimit, RateLimiter.getClientSecondBucket,
    RateLimiter.getClientMinuteBucket, RateLimiter.recordRejection, hen]
  by_cases h1 : (rl.global_second_bucket.consume
      (effectiveTokens rl.config priority tokens) now).1
  case neg =>
    have hw := tokenBucket_getWaitTime_after_fail rl.global_second_bucket
      (effectiveTokens rl.config priority tokens) now
      ((tokenBucket_consume_fst_false _ _ _).1 (by simp_all))
    simp_all
  case pos =>
    by_cases h2 : (rl.global_minute_bucket.consume
        (effectiveTokens rl.config priority tokens) now).1
    case neg =>
      have hw := tokenBucket_getWaitTime_after_fail rl.global_minute_bucket
        (effectiveTokens rl.config priority tokens) now
        ((tokenBucket_consume_fst_false _ _ _).1 (by simp_all))
      simp_all
    case pos =>
      have hw := tokenBucket_getWaitTime_after_fail
      rcases hb3 : alistGet rl.client_second_buckets client_id with _ | b3 <;>
        by_cases h3 : ((rl.getClientSecondBucket client_id now).1.consume
            (effectiveTokens rl.config priority tokens) now).1 <;>
        simp only [RateLimiter.getClientSecondBucket, hb3] at h3 <;>
        rcases hb4 : alistGet rl.client_minute_buckets client_id with _ | b4 <;>
        by_cases h4 : ((rl.getClientMinuteBucket client_id now).1.consume
            (effectiveTokens rl.config priority tokens) now).1 <;>
        simp only [RateLimiter.getClientMinuteBucket, hb4] at h4 <;>
        simp_all [RateLimiter.getClientSecondBucket,
          RateLimiter.getClientMinuteBucket,
          tokenBucket_consume_fst_false]

/-- Witness for C4: on a freshly built limiter with default configuration,
a high-priority request is admitted with all four buckets consenting. -/
theorem rateLimiter_checkRateLimit_order_witness :
    ((RateLimiter.mk0 {} 0).checkRateLimit "c" "high" 1 0).allowed = true := by
  have h := rateLimiter_checkRateLimit_order (RateLimiter.mk0 {} 0) "c"
    "high" 1 0 rfl (effectiveTokens (RateLimiter.mk0 {} 0).config "high" 1)
    _ _ _ _ _ rfl rfl rfl rfl rfl rfl
  rw [h.2.1]
  norm_num [RateLimiter.mk0, TokenBucket.mk0, TokenBucket.consume,
    TokenBucket.refill, effectiveTokens, RateLimiter.getClientSecondBucket,
    RateLimiter.getClientMinuteBucket, alistGet, alistSet]

/-- A successful consume subtracts the request from the refilled count. -/
theorem tokenBucket_consume_fst_true (b : TokenBucket) (n now : ℚ)
    (h : (b.consume n now).1 = true) :
    (b.consume n now).2.tokens = (b.refill now).tokens - n := by
  simp only [TokenBucket.consume] at h ⊢
  split <;> simp_all

/-- Claim C10: a request rejected by a later bucket in the fixed check
order is not refunded the tokens already taken from the earlier buckets:
on a client-second rejection both global buckets keep the deduction, and
on a client-minute rejection both global buckets and the client-second
bucket keep it. -/
theorem rateLimiter_no_refund (rl : RateLimiter)
    (client_id priority : String) (tokens now : ℚ)
    (hen : rl.config.enabled = true)
    (eff : ℚ) (c1 c2 c3 c4 : Bool × TokenBucket) (b3 : TokenBucket)
    (res : CheckResult)
    (heff : eff = effectiveTokens rl.config priority tokens)
    (hc1 : c1 = rl.global_second_bucket.consume eff now)
    (hc2 : c2 = rl.global_minute_bucket.consume eff now)
    (hb3 : b3 = (rl.getClientSecondBucket client_id now).1)
    (hc3 : c3 = b3.consume eff now)
    (hc4 : c4 = ((rl.getClientMinuteBucket client_id now).1).consume eff now)
    (hres : res = rl.checkRateLimit client_id priority tokens now) :
    (c1.1 = true → c2.1 = true → c3.1 = false →
        res.state.global_second_bucket = c1.2
        ∧ res.state.global_minute_bucket = c2.2
        ∧ c1.2.tokens = (rl.global_second_bucket.refill now).tokens - eff
        ∧ c2.2.tokens = (rl.global_minute_bucket.refill now).tokens - eff
        ∧ res.reason = some "client_second_limit")
    ∧ (c1.1 = true → c2.1 = true → c3.1 = true → c4.1 = false →
        res.state.global_second_bucket = c1.2
        ∧ res.state.global_minute_bucket = c2.2
        ∧ alistGet res.state.client_second_buckets client_id = some c3.2
        ∧ c1.2.tokens = (rl.global_second_bucket.refill now).tokens - eff
        ∧ c2.2.tokens = (rl.global_minute_bucket.refill now).tokens - eff
        ∧ c3.2.tokens = (b3.refill now).tokens - eff
        ∧ res.reason = some "client_minute_limit") := by
  subst heff hc1 hc2 hb3 hc3 hc4 hres
  simp only [RateLimiter.checkRateLimit, RateLimiter.getClientSecondBucket,
    RateLimiter.getClientMinuteBucket, RateLimiter.recordRejection, hen]
  by_cases h1 : (rl.global_second_bucket.consume
      (effectiveTokens rl.config priority tokens) now).1
  case neg => simp_all
  case pos =>
    by_cases h2 : (rl.global_minute_bucket.consume
        (effectiveTokens rl.config priority tokens) now).1
    case neg => simp_all
    case pos =>
      have hd1 := tokenBucket_consume_fst_true rl.global_second_bucket
        (effectiveTokens rl.config priority tokens) now h1
      have hd2 := tokenBucket_consume_fst_true rl.global_minute_bucket
        (effectiveTokens rl.config priority tokens) now h2
      have hd3 := tokenBucket_consume_fst_true
        ((rl.getClientSecondBucket client_id now).1)
        (effectiveTokens rl.config priority tokens) now
      rcases hg3 : alistGet rl.client_second_buckets client_id with _ | b3 <;>
        by_cases h3 : ((rl.getClientSecondBucket client_id now).1.consume
            (effectiveTokens rl.config priority tokens) now).1 <;>
        simp only [RateLimiter.getClientSecondBucket, hg3] at h3 hd3 <;>
        rcases hg4 : alistGet rl.client_minute_buckets client_id with _ | b4 <;>
        by_cases h4 : ((rl.getClientMinuteBucket client_id now).1.consume
            (effectiveTokens rl.config priority tokens) now).1 <;>
        simp only [RateLimiter.getClientMinuteBucket, hg4] at h4 <;>
        simp_all [RateLimiter.getClientSecondBucket,
          RateLimiter.getClientMinuteBucket, alistGet_alistSet_self]

/-- Witness for C10: with a configuration whose client-minute ceiling is
zero, the first request is rejected by the client-minute bucket while the
two global buckets and the client-second bucket keep their deductions. -/
theorem rateLimiter_no_refund_witness :
    ((RateLimiter.mk0
        { client_requests_per_minute := 0 } 0).checkRateLimit
      "c" "normal" 1 0).reason = some "client_minute_limit"
    ∧ ((RateLimiter.mk0
        { client_requests_per_minute := 0 } 0).checkRateLimit
      "c" "normal" 1 0).state.global_second_bucket.tokens = 19 := by
  have h := rateLimiter_no_refund
    (RateLimiter.mk0 { client_requests_per_minute := 0 } 0) "c" "normal" 1 0
    rfl (effectiveTokens
      (RateLimiter.mk0 { client_requests_per_minute := 0 } 0).config
      "normal" 1) _ _ _ _ _ _ rfl rfl rfl rfl rfl rfl rfl
  have hne : ¬ (("normal" : String) = "high") := by decide
  have h2 := h.2 (by norm_num [RateLimiter.mk0, TokenBucket.mk0,
      TokenBucket.consume, TokenBucket.refill, effectiveTokens, hne])
    (by norm_num [RateLimiter.mk0, TokenBucket.mk0, TokenBucket.consume,
      TokenBucket.refill, effectiveTokens, hne])
    (by norm_num [RateLimiter.mk0, TokenBucket.mk0, TokenBucket.consume,
      TokenBucket.refill, effectiveTokens, hne,
      RateLimiter.getClientSecondBucket, alistGet, alistSet])
    (by norm_num [RateLimiter.mk0, TokenBucket.mk0, TokenBucket.consume,
      TokenBucket.refill, effectiveTokens, hne,
      RateLimiter.getClientMinuteBucket, alistGet, alistSet])
  refine ⟨h2.2.2.2.2.2.2, ?_⟩
  rw [h2.1, h2.2.2.2.1]
  norm_num [RateLimiter.mk0, TokenBucket.mk0, TokenBucket.refill,
    effectiveTokens, hne]

/-! ## Theorems for claim C1 — retry wrapper and the open circuit breaker

The claim asserts that a call guarded by an open breaker fails immediately
without consuming a retry attempt and without any backoff sleep. In the
source the "circuit breaker open" error is raised inside the try block of
the loop body, so it is caught by the generic except handler, recorded as
a further breaker failure (pushing the recovery deadline forward), and
retried with the full exponential backoff schedule; only after all
attempts are consumed does the circuit-breaker error propagate. The
counterexample below exhibits this; the amended statement describes the
actual behaviour and is proved in general. The second half of the claim
(validation and rate-limit errors are never retried) does hold. -/

/-- Recording a failure on an open breaker keeps it open, stamps the
failure time, and preserves the recovery timeout. -/
theorem circuitBreaker_recordFailure_open (cb : CircuitBreaker) (t : ℚ)
    (h : cb.state = .opened) :
    (cb.recordFailure t).state = .opened
    ∧ (cb.recordFailure t).last_failure_time = some t
    ∧ (cb.recordFailure t).recovery_timeout = cb.recovery_timeout := by
  simp only [CircuitBreaker.recordFailure]
  split <;> simp_all

/-- Counterexample for claim C1 as stated: with the default error
configuration and an open, unrecovered breaker for service svc, the
wrapped call is indeed never invoked and the circuit-breaker error is the
final result, but the wrapper consumes all three retry attempts and
sleeps the full backoff schedule 1s, 2s, 4s on the way, contradicting
"without consuming any retry attempt and without any backoff sleep". -/
theorem withRetry_circuit_open_counterexample :
    openBreakerRun.finalState.sleeps = [1, 2, 4]
    ∧ openBreakerRun.finalState.calls = 0
    ∧ openBreakerRun.result
        = .error (.serviceErr "Circuit breaker open for svc"
            (some "CIRCUIT_BREAKER_OPEN")) := by
  norm_num [openBreakerRun, openBreakers, withRetry, withRetryLoop,
    withRetryIter, withRetryHandle, getCircuitBreaker, alistGet, alistSet,
    recordError, CircuitBreaker.canAttempt, CircuitBreaker.recordFailure,
    PyError.neverRetried, PyError.typeName]
  decide

/-- The loop of with_retry against a breaker that stays open: every
iteration raises the circuit-breaker error without invoking the
operation, records it as a failure, and backs off, until the attempts are
exhausted. -/
theorem withRetryLoop_open {α : Type} (cfg : ErrorConfig) (name : String)
    (f : ℕ → FOutcome α) (times : ℕ → ℚ) (rt : ℚ)
    (hcb : cfg.enable_circuit_breaker = true)
    (hretry : cfg.enable_retry = true)
    (hgaps : ∀ k, times (k + 1) - times k < rt) :
    ∀ (fu a : ℕ) (st : RetryState) (lastE : Option PyError)
      (cb : CircuitBreaker) (L : ℚ),
      1 ≤ fu →
      a + fu = cfg.max_retries + 1 →
      alistGet st.breakers name = some cb →
      cb.state = .opened →
      cb.last_failure_time = some L →
      cb.recovery_timeout = rt →
      times a - L < rt →
      ((withRetryLoop cfg (some name) f times a fu st lastE).result
          = .error (.serviceErr ("Circuit breaker open for " ++ name)
              (some "CIRCUIT_BREAKER_OPEN"))
        ∧ (withRetryLoop cfg (some name) f times a fu st lastE).finalState.calls
            = st.calls
        ∧ (withRetryLoop cfg (some name) f times a fu st lastE).finalState.sleeps
            = st.sleeps ++ (List.range (cfg.max_retries - a)).map
                (fun j => cfg.retry_delay * cfg.retry_backoff ^ (a + j))) := by
  intro fu
  induction fu with
  | zero => intro a st lastE cb L h1; omega
  | succ fu ih =>
      intro a st lastE cb L _ hsum hget hstate hlast hrt htime
      have hcan : (cb.canAttempt (times a)).1 = false
          ∧ (cb.canAttempt (times a)).2 = cb := by
        simp [CircuitBreaker.canAttempt, hstate, hlast, hrt,
          not_le.2 htime]
      have hiter : withRetryIter cfg (some name) f a (times a) st
          = withRetryHandle cfg (some name) a (times a)
              (.serviceErr ("Circuit breaker open for " ++ name)
                (some "CIRCUIT_BREAKER_OPEN"))
              { st with breakers := alistSet st.breakers name cb } := by
        simp [withRetryIter, hcb, hget, getCircuitBreaker, hcan.1, hcan.2]
      have hrf := circuitBreaker_recordFailure_open cb (times a) hstate
      by_cases hlt : a < cfg.max_retries
      · have hhandle : withRetryHandle (α := α) cfg (some name) a (times a)
            (.serviceErr ("Circuit breaker open for " ++ name)
              (some "CIRCUIT_BREAKER_OPEN"))
            { st with breakers := alistSet st.breakers name cb }
            = (.retryAfter (cfg.retry_delay * cfg.retry_backoff ^ a)
                (.serviceErr ("Circuit breaker open for " ++ name)
                  (some "CIRCUIT_BREAKER_OPEN")),
               { st with
                  breakers := alistSet (alistSet st.breakers name cb) name
                    (cb.recordFailure (times a))
                  total_errors := st.total_errors + 1
                  retries_stat := st.retries_stat + 1
                  error_types := alistSet st.error_types "AIServiceError"
                    (((alistGet st.error_types "AIServiceError").getD 0)
                      + 1) }) := by
          simp [withRetryHandle, recordError, PyError.neverRetried,
            PyError.typeName, hcb, hretry, hlt, getCircuitBreaker,
            alistGet_alistSet_self]
        have hloop : withRetryLoop cfg (some name) f times a (fu + 1) st lastE
            = withRetryLoop cfg (some name) f times (a + 1) fu
                { st with
                  breakers := alistSet (alistSet st.breakers name cb) name
                    (cb.recordFailure (times a))
                  total_errors := st.total_errors + 1
                  retries_stat := st.retries_stat + 1
                  error_types := alistSet st.error_types "AIServiceError"
                    (((alistGet st.error_types "AIServiceError").getD 0) + 1)
                  sleeps := st.sleeps
                    ++ [cfg.retry_delay * cfg.retry_backoff ^ a] }
                (some (.serviceErr ("Circuit breaker open for " ++ name)
                  (some "CIRCUIT_BREAKER_OPEN"))) := by
          simp only [withRetryLoop, hiter, hhandle]
        rw [hloop]
        have hres := ih (a + 1)
          { st with
            breakers := alistSet (alistSet st.breakers name cb) name
              (cb.recordFailure (times a))
            total_errors := st.total_errors + 1
            retries_stat := st.retries_stat + 1
            error_types := alistSet st.error_types "AIServiceError"
              (((alistGet st.error_types "AIServiceError").getD 0) + 1)
            sleeps := st.sleeps
              ++ [cfg.retry_delay * cfg.retry_backoff ^ a] }
          (some (.serviceErr ("Circuit breaker open for " ++ name)
            (some "CIRCUIT_BREAKER_OPEN")))
          (cb.recordFailure (times a)) (times a)
          (by omega) (by omega)
          (by simp [alistGet_alistSet_self])
          hrf.1 hrf.2.1 (hrf.2.2.trans hrt) (hgaps a)
        refine ⟨hres.1, hres.2.1, ?_⟩
        rw [hres.2.2]
        have hrange : cfg.max_retries - a = (cfg.max_retries - (a + 1)) + 1 :=
          by omega
        rw [hrange, List.range_succ_eq_map]
        simp [List.map_map, Function.comp, List.append_assoc]
        intro j hj
        left
        congr 1
        omega
      · have haeq : a = cfg.max_retries := by omega
        have hhandle : withRetryHandle (α := α) cfg (some name) a (times a)
            (.serviceErr ("Circuit breaker open for " ++ name)
              (some "CIRCUIT_BREAKER_OPEN"))
            { st with breakers := alistSet st.breakers name cb }
            = (.done (.error (.serviceErr ("Circuit breaker open for " ++ name)
                (some "CIRCUIT_BREAKER_OPEN"))),
               { st with
                  breakers := alistSet (alistSet st.breakers name cb) name
                    (cb.recordFailure (times a))
                  total_errors := st.total_errors + 1
                  error_types := alistSet st.error_types "AIServiceError"
                    (((alistGet st.error_types "AIServiceError").getD 0)
                      + 1) }) := by
          simp [withRetryHandle, recordError, PyError.neverRetried,
            PyError.typeName, hcb, hlt, getCircuitBreaker,
            alistGet_alistSet_self]
        have hloop : withRetryLoop cfg (some name) f times a (fu + 1) st lastE
            = ⟨.error (.serviceErr ("Circuit breaker open for " ++ name)
                (some "CIRCUIT_BREAKER_OPEN")),
               { st with
                  breakers := alistSet (alistSet st.breakers name cb) name
                    (cb.recordFailure (times a))
                  total_errors := st.total_errors + 1
                  error_types := alistSet st.error_types "AIServiceError"
                    (((alistGet st.error_types "AIServiceError").getD 0)
                      + 1) }⟩ := by
          simp only [withRetryLoop, hiter, hhandle]
        rw [hloop]
        exact ⟨rfl, rfl, by simp [haeq]⟩

/-- Amended claim C1: (a) while an associated circuit breaker is open and
its recovery window keeps being missed, the wrapped operation is never
invoked and the call does ultimately fail with the CIRCUIT_BREAKER_OPEN
service error, but only after the wrapper has treated every rejection as
a retryable failure, sleeping the full exponential backoff schedule
retry_delay * retry_backoff ^ k for k < max_retries; (b) a wrapped
operation that raises a ValidationError or RateLimitError has the error
re-raised immediately after the first invocation, with no retry and no
backoff sleep. -/
theorem withRetry_amended (α : Type) :
    (∀ (cfg : ErrorConfig) (name : String)
        (breakers : List (String × CircuitBreaker)) (f : ℕ → FOutcome α)
        (times : ℕ → ℚ) (cb : CircuitBreaker) (L : ℚ),
      cfg.enable_circuit_breaker = true →
      cfg.enable_retry = true →
      alistGet breakers name = some cb →
      cb.state = .opened →
      cb.last_failure_time = some L →
      times 0 - L < cb.recovery_timeout →
      (∀ k, times (k + 1) - times k < cb.recovery_timeout) →
      ((withRetry cfg (some name) breakers f times).result
          = .error (.serviceErr ("Circuit breaker open for " ++ name)
              (some "CIRCUIT_BREAKER_OPEN"))
        ∧ (withRetry cfg (some name) breakers f times).finalState.calls = 0
        ∧ (withRetry cfg (some name) breakers f times).finalState.sleeps
            = (List.range cfg.max_retries).map
                (fun k => cfg.retry_delay * cfg.retry_backoff ^ k)))
    ∧ (∀ (cfg : ErrorConfig) (service : Option String)
        (breakers : List (String × CircuitBreaker)) (f : ℕ → FOutcome α)
        (times : ℕ → ℚ) (e : PyError),
      f 0 = .raise e →
      e.neverRetried = true →
      (∀ nm, service = some nm → cfg.enable_circuit_breaker = true →
        ((getCircuitBreaker breakers cfg nm).1.canAttempt (times 0)).1
          = true) →
      ((withRetry cfg service breakers f times).result = .error e
        ∧ (withRetry cfg service breakers f times).finalState.calls = 1
        ∧ (withRetry cfg service breakers f times).finalState.sleeps = [])) := by
  constructor
  · intro cfg name breakers f times cb L hcb hretry hget hstate hlast h0 hgaps
    have h := withRetryLoop_open cfg name f times cb.recovery_timeout hcb
      hretry hgaps (cfg.max_retries + 1) 0
      { calls := 0, sleeps := [], breakers := breakers,
        total_errors := 0, retries_stat := 0, error_types := [] }
      none cb L (by omega) (by omega) hget hstate hlast rfl h0
    simpa [withRetry] using h
  · intro cfg service breakers f times e hraise hnr hallow
    have hone : ∃ fu, cfg.max_retries + 1 = fu + 1 := ⟨cfg.max_retries, rfl⟩
    obtain ⟨fu, hfu⟩ := hone
    unfold withRetry
    rw [hfu]
    match service, hcbv : cfg.enable_circuit_breaker with
    | some nm, true =>
        have hcan := hallow nm rfl hcbv
        simp [withRetryLoop, withRetryIter, hcbv, hcan, hraise,
          withRetryHandle, hnr, recordError]
    | some nm, false =>
        simp [withRetryLoop, withRetryIter, hcbv, hraise,
          withRetryHandle, hnr, recordError]
    | none, true =>
        simp [withRetryLoop, withRetryIter, hcbv, hraise,
          withRetryHandle, hnr, recordError]
    | none, false =>
        simp [withRetryLoop, withRetryIter, hcbv, hraise,
          withRetryHandle, hnr, recordError]

/-- Witness for the amended C1: the concrete open-breaker run sleeps
exactly 1s, 2s, 4s with zero invocations, and a validation error is
re-raised after one invocation with no sleeps. -/
theorem withRetry_amended_witness :
    openBreakerRun.finalState.calls = 0
    ∧ validationRun.result = .error (.validationErr "bad") := by
  constructor
  · exact ((withRetry_amended String).1 {} "svc" openBreakers
      (fun _ => FOutcome.ok "v") (fun i => (i : ℚ)) _ 0 rfl rfl rfl rfl rfl
      (by norm_num)
      (fun k => by push_cast; norm_num)).2.1
  · exact ((withRetry_amended String).2 {} none []
      (fun _ => FOutcome.raise (.validationErr "bad")) (fun _ => 0)
      (.validationErr "bad") rfl rfl
      (fun nm h => by simp at h)).1

/-! ## Theorems for claim C6 — cache LRU eviction on set -/

/-- Claim C6: on an enabled cache already holding max_size entries, set
first evicts exactly the least-recently-used entry (the head of the
order list), bumping the eviction counter, then inserts the new entry
with the given ttl (when nonzero) or the configured default; and with
max_size 2, after setting A, B, C the entry A is gone (a miss) while B
and C are hits. -/
theorem cacheManager_set_lru (α : Type) :
    (∀ (cm : CacheManager α) (key : String) (value : α) (ttl : Option ℚ)
        (now : ℚ) (k0 : String) (e0 : CacheEntry α)
        (rest : List (String × CacheEntry α)),
      cm.config.enabled = true →
      cm.cache = (k0, e0) :: rest →
      cm.config.max_size = cm.cache.length →
      ((cm.set key value ttl now).evictions = cm.evictions + 1
        ∧ (cm.set key value ttl now).cache
            = alistSet rest key
                ⟨key, value, now, now, 0, resolveTtl ttl cm.config⟩
        ∧ (∃ e, alistGet (cm.set key value ttl now).cache key = some e
            ∧ e.value = value ∧ e.created_at = now
            ∧ (ttl = none → e.ttl = cm.config.ttl_seconds)
            ∧ (∀ t, ttl = some t → t ≠ 0 → e.ttl = t))))
    ∧ cacheScenario.cache
        = [("B", ⟨"B", "vb", 1, 1, 0, 3600⟩), ("C", ⟨"C", "vc", 2, 2, 0, 3600⟩)]
    ∧ cacheGetA.1 = none
    ∧ cacheGetB.1 = some "vb"
    ∧ cacheGetC.1 = some "vc"
    ∧ cacheGetC.2.misses = 1
    ∧ cacheGetC.2.hits = 2 := by
  constructor
  · intro cm key value ttl now k0 e0 rest hen hcache hmax
    have hfull : cm.config.max_size ≤ cm.cache.length := le_of_eq hmax
    have hsetc : (cm.set key value ttl now).cache
        = alistSet rest key
            ⟨key, value, now, now, 0, resolveTtl ttl cm.config⟩ := by
      simp only [CacheManager.set, hen]
      rw [if_neg (by simp), if_pos hfull]
      simp [CacheManager.evictLru, hcache]
    have hsete : (cm.set key value ttl now).evictions = cm.evictions + 1 := by
      simp only [CacheManager.set, hen]
      rw [if_neg (by simp), if_pos hfull]
      simp [CacheManager.evictLru, hcache]
    refine ⟨hsete, hsetc, ?_⟩
    refine ⟨⟨key, value, now, now, 0, resolveTtl ttl cm.config⟩,
      ?_, rfl, rfl, ?_, ?_⟩
    · rw [hsetc]
      exact alistGet_alistSet_self _ _ _
    · intro h
      simp [h, resolveTtl]
    · intro t ht hne
      simp [ht, resolveTtl, hne]
  · have hAB : ¬ ("A" : String) = "B" := by decide
    have hAC : ¬ ("A" : String) = "C" := by decide
    have hBC : ¬ ("B" : String) = "C" := by decide
    have hBA : ¬ ("B" : String) = "A" := by decide
    have hCA : ¬ ("C" : String) = "A" := by decide
    have hCB : ¬ ("C" : String) = "B" := by decide
    norm_num [cacheScenario, cacheGetA, cacheGetB, cacheGetC, cacheCfg2,
      CacheManager.mk0, CacheManager.set, CacheManager.get,
      CacheManager.evictLru, CacheManager.delete, CacheManager.moveToEnd,
      CacheEntry.isExpired, CacheEntry.touch, resolveTtl, alistGet, alistSet,
      alistDel, hAB, hAC, hBC, hBA, hCA, hCB]

/-- Witness for C6: setting a fourth key on the full two-entry scenario
cache evicts exactly one more entry. -/
theorem cacheManager_set_lru_witness :
    (cacheScenario.set "D" "vd" none 4).evictions
      = cacheScenario.evictions + 1 := by
  have hAB : ¬ ("A" : String) = "B" := by decide
  have hAC : ¬ ("A" : String) = "C" := by decide
  have hBC : ¬ ("B" : String) = "C" := by decide
  have hc : cacheScenario.cache
      = [("B", ⟨"B", "vb", 1, 1, 0, 3600⟩),
         ("C", ⟨"C", "vc", 2, 2, 0, 3600⟩)] := by
    norm_num [cacheScenario, cacheCfg2, CacheManager.mk0, CacheManager.set,
      CacheManager.evictLru, resolveTtl, alistGet, alistSet, hAB, hAC, hBC]
  have hmax : cacheScenario.config.max_size = cacheScenario.cache.length := by
    rw [hc]
    norm_num [cacheScenario, cacheCfg2, CacheManager.mk0, CacheManager.set,
      CacheManager.evictLru, resolveTtl, alistGet, alistSet, hAB, hAC, hBC]
  exact ((cacheManager_set_lru String).1 cacheScenario "D" "vd" none 4
    "B" ⟨"B", "vb", 1, 1, 0, 3600⟩ [("C", ⟨"C", "vc", 2, 2, 0, 3600⟩)]
    (by norm_num [cacheScenario, cacheCfg2, CacheManager.mk0,
      CacheManager.set, CacheManager.evictLru, resolveTtl, alistGet,
      alistSet, hAB, hAC, hBC])
    hc hmax).1

/-! ## Theorems for claim C9 — nearest-rank percentile -/

/-- The clamped indexing of the percentile estimator is a min with the
last index. -/
theorem percentileOfSorted_eq_min (l : List ℚ) (p : ℚ) (h : l ≠ []) :
    percentileOfSorted l p
      = l.getD (min ((⌊(l.length : ℚ) * p⌋).toNat) (l.length - 1)) 0 := by
  have hlen : 1 ≤ l.length := List.length_pos.2 h
  simp only [percentileOfSorted, List.isEmpty_iff]
  rw [if_neg h]
  by_cases hle : l.length ≤ (⌊(l.length : ℚ) * p⌋).toNat
  · rw [if_pos hle]
    congr 1
    omega
  · rw [if_neg hle]
    congr 1
    omega

/-- Claim C9: for samples within the retention window, the summary sorts
the values ascending (a permutation of the recorded values) and reports
p95 and p99 as the element at index floor(len times p, clamped to the last
index); recording the ten samples 1..10 and asking for p95 yields 10. -/
theorem metrics_percentile_nearest_rank :
    (∀ (mc : MetricsCollector) (name : String)
        (tags : List (String × String)) (now : ℚ)
        (recent : List Metric) (values : List ℚ),
      recent = ((alistGet mc.metrics name).getD []).filter
        (fun m => now - mc.window_size ≤ m.timestamp
          && tagsMatch m.tags tags) →
      values = (recent.map Metric.value).insertionSort (· ≤ ·) →
      recent ≠ [] →
      ∃ s, mc.getMetricSummary name tags now = some s
        ∧ s.p95 = values.getD
            (min ((⌊(values.length : ℚ) * (95 / 100)⌋).toNat)
              (values.length - 1)) 0
        ∧ s.p99 = values.getD
            (min ((⌊(values.length : ℚ) * (99 / 100)⌋).toNat)
              (values.length - 1)) 0
        ∧ values.Sorted (· ≤ ·)
        ∧ values.Perm (recent.map Metric.value))
    ∧ (metricsScenario.getMetricSummary "m" [] 110).map MetricSummary.p95
        = some 10 := by
  constructor
  · intro mc name tags now recent values hrecent hvalues hne
    have hvne : (recent.map Metric.value).insertionSort (· ≤ ·) ≠ [] := by
      intro hcon
      have hp := List.perm_insertionSort (· ≤ ·) (recent.map Metric.value)
      rw [hcon] at hp
      exact hne ((List.map_eq_nil_iff).1 hp.symm.eq_nil)
    have hvne2 : values ≠ [] := by rw [hvalues]; exact hvne
    have hsum : mc.getMetricSummary name tags now
        = some { name := name, count := values.length, sum := values.sum,
                 min := pyMin values, max := pyMax values,
                 mean := values.sum / values.length,
                 median := medianOfSorted values,
                 p95 := percentileOfSorted values (95 / 100),
                 p99 := percentileOfSorted values (99 / 100),
                 tags := tags } := by
      simp only [MetricsCollector.getMetricSummary, ← hrecent, ← hvalues]
      rw [if_neg (by simpa using hne)]
    refine ⟨_, hsum, ?_, ?_, ?_, ?_⟩
    · exact percentileOfSorted_eq_min values (95 / 100) hvne2
    · exact percentileOfSorted_eq_min values (99 / 100) hvne2
    · rw [hvalues]
      exact List.sorted_insertionSort _ _
    · rw [hvalues]
      exact List.perm_insertionSort _ _
  · norm_num [metricsScenario, MetricsCollector.mk0,
      MetricsCollector.recordTimer, MetricsCollector.getMetricSummary,
      dequeAppend, alistGet, alistSet, tagsMatch, percentileOfSorted,
      medianOfSorted, pyMin, pyMax, List.insertionSort, List.orderedInsert]
    rfl

/-- Witness for C9: the scenario summary exists and its p95 is computed by
the theorem. -/
theorem metrics_percentile_nearest_rank_witness :
    ∃ s, metricsScenario.getMetricSummary "m" [] 110 = some s := by
  obtain ⟨s, hs, _⟩ := metrics_percentile_nearest_rank.1 metricsScenario
    "m" [] 110 _ _ rfl rfl
    (by
      norm_num [metricsScenario, MetricsCollector.mk0,
        MetricsCollector.recordTimer, dequeAppend, alistGet, alistSet,
        tagsMatch]
      simp)
  exact ⟨s, hs⟩

/-! ## Theorems for claim C8 — chat handler fallback on adapter failure -/

/-- Claim C8: for a non-streaming request with the router attached, a
cache miss, and an adapter whose chat call raises: the failure is
recorded with the router, and when the router resolves a fallback model to
a configured adapter the handler retries exactly once against it,
reporting the fallback success shape on success; when the fallback call
also fails, or no fallback resolves, or the fallback adapter is not
configured, the original adapter error is the reported error. -/
theorem handleChat_fallback {Msg PV Val : Type}
    (adapters : List (String × ChatAdapter Msg PV Val))
    (r : ChatRouter Msg) (cacheGet : Option (String → Option Val))
    (keyFn : List Msg → Option String → List (String × PV) → String)
    (params : ChatParams Msg PV) (metadata : List (String × String))
    (model aname : String) (adapter : ChatAdapter Msg PV Val) (e : String)
    (hstream : params.stream = false)
    (hmsgs : params.messages ≠ [])
    (hsel : r.select_model params.messages params.model metadata
      = .ok (model, aname))
    (hadapter : alistGet adapters aname = some adapter)
    (hfail : adapter.chat params.messages model params.rest = .error e)
    (hcache : ∀ g, cacheGet = some g →
      g (keyFn params.messages params.model params.rest) = none) :
    (handleChat adapters (some r) cacheGet keyFn params
      metadata).recorded_failures = [model]
    ∧ (∀ fm fan fad d, r.get_fallback_model model = some (fm, fan) →
        alistGet adapters fan = some fad →
        fad.chat params.messages fm params.rest = .ok d →
        (handleChat adapters (some r) cacheGet keyFn params
          metadata).response = .successFallback d fan model)
    ∧ (∀ fm fan fad e2, r.get_fallback_model model = some (fm, fan) →
        alistGet adapters fan = some fad →
        fad.chat params.messages fm params.rest = .error e2 →
        (handleChat adapters (some r) cacheGet keyFn params
          metadata).response = .errorResp e)
    ∧ (r.get_fallback_model model = none →
        (handleChat adapters (some r) cacheGet keyFn params
          metadata).response = .errorResp e)
    ∧ (∀ fm fan, r.get_fallback_model model = some (fm, fan) →
        alistGet adapters fan = none →
        (handleChat adapters (some r) cacheGet keyFn params
          metadata).response = .errorResp e) := by
  have hmain : ∃ ck, handleChat adapters (some r) cacheGet keyFn params
      metadata = handleChatInvoke adapters (some r) ck params (some adapter)
        aname model := by
    cases cacheGet with
    | none =>
        refine ⟨none, ?_⟩
        simp [handleChat, handleChatSelect, hmsgs, hsel, hadapter]
    | some g =>
        refine ⟨some (keyFn params.messages params.model params.rest), ?_⟩
        have hg := hcache g rfl
        simp [handleChat, handleChatSelect, hmsgs, hstream, hsel, hadapter,
          hg]
  obtain ⟨ck, hmain⟩ := hmain
  rw [hmain]
  refine ⟨?_, ?_, ?_, ?_, ?_⟩
  · rcases hgf : r.get_fallback_model model with _ | ⟨fm, fan⟩
    · simp [handleChatInvoke, hstream, hfail, hgf]
    · rcases hga : alistGet adapters fan with _ | fad
      · simp [handleChatInvoke, hstream, hfail, hgf, hga]
      · rcases hfc : fad.chat params.messages fm params.rest with e2 | d
        · simp [handleChatInvoke, hstream, hfail, hgf, hga, hfc]
        · simp [handleChatInvoke, hstream, hfail, hgf, hga, hfc]
  · intro fm fan fad d hgf hga hfc
    simp [handleChatInvoke, hstream, hfail, hgf, hga, hfc]
  · intro fm fan fad e2 hgf hga hfc
    simp [handleChatInvoke, hstream, hfail, hgf, hga, hfc]
  · intro hgf
    simp [handleChatInvoke, hstream, hfail, hgf]
  · intro fm fan hgf hga
    simp [handleChatInvoke, hstream, hfail, hgf, hga]

/-- Witness for C8: the concrete always-failing adapter a1 with a router
falling back to a2 yields the fallback success shape. -/
theorem handleChat_fallback_witness :
    (handleChat chatAdapters (some chatRouterX) none (fun _ _ _ => "k")
      chatParamsX []).response = ChatResp.successFallback "data" "a2" "m1" := by
  have h := handleChat_fallback chatAdapters chatRouterX none
    (fun _ _ _ => "k") chatParamsX [] "m1" "a1"
    ⟨fun _ _ _ => Except.error "boom"⟩ "boom" rfl
    (by simp [chatParamsX]) rfl (by simp [chatAdapters, alistGet]) rfl
    (fun g hg => by simp at hg)
  exact h.2.1 "m2" "a2" ⟨fun _ _ _ => Except.ok "data"⟩ "data" rfl
    (by simp [chatAdapters, alistGet]) rfl

/-! ## Theorems for claim C7 — cache key determinism -/

/-- Claim C7: generate_cache_key depends on exactly the model, the
messages, and the effective temperature (default 0.7), max_tokens and
top_p values: two calls agreeing on those five inputs give the same
SHA-256 hex digest whatever other keyword arguments are present and in
whatever order; and on the concrete hi message, moving temperature from
0.7 to 0.8 changes the digest, while reordering or varying unrelated
keyword arguments does not. -/
theorem generateCacheKey_deterministic :
    (∀ (model : String) (messages : List JVal)
        (kw1 kw2 : List (String × JVal)),
      (alistGet kw1 "temperature").getD (.jnum 7 1)
        = (alistGet kw2 "temperature").getD (.jnum 7 1) →
      (alistGet kw1 "max_tokens").getD .jnull
        = (alistGet kw2 "max_tokens").getD .jnull →
      (alistGet kw1 "top_p").getD .jnull
        = (alistGet kw2 "top_p").getD .jnull →
      generateCacheKey model messages kw1
        = generateCacheKey model messages kw2)
    ∧ generateCacheKey "m" [hiMessage]
        [("foo", .jnull), ("temperature", .jnum 7 1)]
      = generateCacheKey "m" [hiMessage]
        [("temperature", .jnum 7 1), ("bar", .jbool true)]
    ∧ generateCacheKey "m" [hiMessage] [("temperature", .jnum 7 1)]
      ≠ generateCacheKey "m" [hiMessage] [("temperature", .jnum 8 1)] := by
  have hdet : ∀ (model : String) (messages : List JVal)
      (kw1 kw2 : List (String × JVal)),
      (alistGet kw1 "temperature").getD (.jnum 7 1)
        = (alistGet kw2 "temperature").getD (.jnum 7 1) →
      (alistGet kw1 "max_tokens").getD .jnull
        = (alistGet kw2 "max_tokens").getD .jnull →
      (alistGet kw1 "top_p").getD .jnull
        = (alistGet kw2 "top_p").getD .jnull →
      generateCacheKey model messages kw1
        = generateCacheKey model messages kw2 := by
    intro model messages kw1 kw2 h1 h2 h3
    simp only [generateCacheKey, h1, h2, h3]
  refine ⟨hdet, hdet "m" [hiMessage] _ _ (by rfl) (by rfl) (by rfl), ?_⟩
  rw [generateCacheKey_hi_temperature07, generateCacheKey_hi_temperature08]
  decide

/-- Witness for C7: unrelated keyword arguments in different orders give
the same digest on the concrete input. -/
theorem generateCacheKey_deterministic_witness :
    generateCacheKey "m" [hiMessage]
      [("foo", .jnull), ("temperature", .jnum 7 1)]
    = generateCacheKey "m" [hiMessage]
      [("temperature", .jnum 7 1), ("baz", .jstr "x")] :=
  generateCacheKey_deterministic.1 "m" [hiMessage] _ _ rfl rfl rfl

/-! ## Character and byte-level lemmas feeding the wire-protocol
round-trip (claim C2) -/

/-- Characters are equal exactly when their code points are. -/
theorem char_eq_iff_toNat (c d : Char) : c = d ↔ c.toNat = d.toNat := by
  constructor
  · intro h; rw [h]
  · intro h; apply Char.ext; apply UInt32.ext; exact h

/-- Char.ofNat inverts toNat on valid code points. -/
theorem char_toNat_ofNat (n : ℕ) (h : n.isValidChar) :
    (Char.ofNat n).toNat = n := by
  have h2 : n < 1114112 := by
    rcases h with h | h
    · omega
    · omega
  simp [Char.ofNat, h, Char.ofNatAux, Char.toNat, UInt32.toNat,
    UInt32.ofNatCore]

/-- Char.ofNat inverts toNat below the surrogate range. -/
theorem char_toNat_ofNat_small (n : ℕ) (h : n < 55296) :
    (Char.ofNat n).toNat = n :=
  char_toNat_ofNat n (Or.inl h)

/-- Every character's code point misses the surrogate range and stays
below 0x110000. -/
theorem char_valid_ranges (c : Char) :
    c.toNat < 55296 ∨ (57344 ≤ c.toNat ∧ c.toNat < 1114112) := c.valid

/-- isDigit in terms of the code point. -/
theorem char_isDigit_iff (c : Char) :
    c.isDigit = true ↔ 48 ≤ c.toNat ∧ c.toNat ≤ 57 := by
  simp [Char.isDigit, Char.toNat, Char.le_def, UInt32.le_def,
    decide_eq_true_iff]
  rfl

/-- hexVal inverts hexDigitChar on nibbles. -/
theorem hexVal_hexDigitChar (d : ℕ) (h : d < 16) :
    hexVal (hexDigitChar d) = some d := by
  interval_cases d <;> decide

/-- hex4Val inverts hex4 on values below 0x10000. -/
theorem hex4Val_hex4 (n : ℕ) (h : n < 65536) :
    hex4Val (hexDigitChar (n / 4096 % 16)) (hexDigitChar (n / 256 % 16))
      (hexDigitChar (n / 16 % 16)) (hexDigitChar (n % 16)) = some n := by
  rw [hex4Val, hexVal_hexDigitChar _ (by omega),
    hexVal_hexDigitChar _ (by omega), hexVal_hexDigitChar _ (by omega),
    hexVal_hexDigitChar _ (by omega)]
  simp only [Option.bind_eq_bind, Option.some_bind, Option.pure_def,
    Option.some.injEq]
  omega

/-- struct.pack of an in-range u32. -/
theorem packU32_eq (n : ℕ) (h : n < 4294967296) :
    packU32 n = some [n % 256, n / 256 % 256, n / 65536 % 256,
      n / 16777216 % 256] := by
  simp [packU32, h]

/-- struct.unpack inverts struct.pack of an in-range u32. -/
theorem readU32_pack (n : ℕ) (rest : List ℕ) (h : n < 4294967296) :
    readU32 ([n % 256, n / 256 % 256, n / 65536 % 256,
      n / 16777216 % 256] ++ rest) = some (n, rest) := by
  simp only [List.cons_append, List.nil_append, readU32,
    Option.some.injEq, Prod.mk.injEq]
  exact ⟨by omega, trivial⟩

/-- takeWhile and dropWhile split an append whose left part satisfies
the predicate and whose right part does not start with it. -/
theorem takeWhile_append_of (p : Char → Bool) (ds rest : List Char)
    (h1 : ∀ c ∈ ds, p c = true)
    (h2 : ∀ c t, rest = c :: t → p c = false) :
    (ds ++ rest).takeWhile p = ds ∧ (ds ++ rest).dropWhile p = rest := by
  induction ds with
  | nil =>
      cases rest with
      | nil => simp
      | cons c t =>
          simp [List.takeWhile_cons, List.dropWhile_cons, h2 c t rfl]
  | cons d ds ih =>
      have hd : p d = true := h1 d (List.mem_cons_self d ds)
      have ih2 := ih (fun c hc => h1 c (List.mem_cons_of_mem d hc))
      simp [List.takeWhile_cons, List.dropWhile_cons, hd, ih2.1, ih2.2]

/-- skipWs is the identity when the head is not whitespace. -/
theorem skipWs_eq_self (l : List Char)
    (h : ∀ c t, l = c :: t → isWsChar c = false) : skipWs l = l := by
  cases l with
  | nil => rfl
  | cons c t => simp [skipWs, List.dropWhile_cons, h c t rfl]

/-- skipWs steps over a whitespace head. -/
theorem skipWs_cons_ws (c : Char) (t : List Char) (h : isWsChar c = true) :
    skipWs (c :: t) = skipWs t := by
  simp [skipWs, List.dropWhile_cons, h]

/-- One-byte (ASCII) step of the UTF-8 decoder. -/
theorem utf8DecodeGo_one (fuel b : ℕ) (rest : List ℕ) (h : b < 128) :
    utf8DecodeGo (fuel + 1) (b :: rest)
      = (utf8DecodeGo fuel rest).map (Char.ofNat b :: ·) := by
  rw [utf8DecodeGo]
  rw [if_pos h]

/-- Two-byte step of the UTF-8 decoder. -/
theorem utf8DecodeGo_two (fuel b c1 : ℕ) (rest : List ℕ)
    (h1 : 194 ≤ b) (h2 : b < 224) (h3 : 128 ≤ c1) (h4 : c1 < 192) :
    utf8DecodeGo (fuel + 1) (b :: c1 :: rest)
      = (utf8DecodeGo fuel rest).map
          (Char.ofNat ((b - 192) * 64 + (c1 - 128)) :: ·) := by
  rw [utf8DecodeGo]
  rw [if_neg (by omega)]
  rw [if_pos (by simp only [Bool.and_eq_true, decide_eq_true_eq]; exact ⟨h1, h2⟩)]
  dsimp only [List.headD, List.tail, List.length]
  rw [if_pos (by
    simp only [Bool.and_eq_true, decide_eq_true_eq]
    exact ⟨by omega, h3, h4⟩)]

/-- Three-byte step of the UTF-8 decoder. -/
theorem utf8DecodeGo_three (fuel b c1 c2 : ℕ) (rest : List ℕ)
    (h1 : 224 ≤ b) (h2 : b < 240) (h3 : 128 ≤ c1) (h4 : c1 < 192)
    (h5 : 128 ≤ c2) (h6 : c2 < 192)
    (h7 : 2048 ≤ (b - 224) * 4096 + (c1 - 128) * 64 + (c2 - 128))
    (h8 : 55296 ≤ (b - 224) * 4096 + (c1 - 128) * 64 + (c2 - 128)
          → 57344 ≤ (b - 224) * 4096 + (c1 - 128) * 64 + (c2 - 128)) :
    utf8DecodeGo (fuel + 1) (b :: c1 :: c2 :: rest)
      = (utf8DecodeGo fuel rest).map
          (Char.ofNat ((b - 224) * 4096 + (c1 - 128) * 64 + (c2 - 128)) :: ·) := by
  rw [utf8DecodeGo]
  rw [if_neg (by omega)]
  rw [if_neg (by simp only [Bool.and_eq_true, decide_eq_true_eq]; omega)]
  rw [if_pos (by simp only [Bool.and_eq_true, decide_eq_true_eq]; exact ⟨h1, h2⟩)]
  dsimp only [List.headD, List.tail, List.length]
  rw [if_pos (by
    simp only [Bool.and_eq_true, Bool.not_eq_true', Bool.and_eq_false_iff,
      decide_eq_true_eq, decide_eq_false_iff_not]
    refine ⟨⟨⟨⟨by omega, h3, h4⟩, h5, h6⟩, h7⟩, ?_⟩
    omega)]

/-- Four-byte step of the UTF-8 decoder. -/
theorem utf8DecodeGo_four (fuel b c1 c2 c3 : ℕ) (rest : List ℕ)
    (h1 : 240 ≤ b) (h2 : b < 245) (h3 : 128 ≤ c1) (h4 : c1 < 192)
    (h5 : 128 ≤ c2) (h6 : c2 < 192) (h7 : 128 ≤ c3) (h8 : c3 < 192)
    (h9 : 65536 ≤ (b - 240) * 262144 + (c1 - 128) * 4096
          + (c2 - 128) * 64 + (c3 - 128))
    (h10 : (b - 240) * 262144 + (c1 - 128) * 4096
          + (c2 - 128) * 64 + (c3 - 128) < 1114112) :
    utf8DecodeGo (fuel + 1) (b :: c1 :: c2 :: c3 :: rest)
      = (utf8DecodeGo fuel rest).map
          (Char.ofNat ((b - 240) * 262144 + (c1 - 128) * 4096
            + (c2 - 128) * 64 + (c3 - 128)) :: ·) := by
  rw [utf8DecodeGo]
  rw [if_neg (by omega)]
  rw [if_neg (by simp only [Bool.and_eq_true, decide_eq_true_eq]; omega)]
  rw [if_neg (by simp only [Bool.and_eq_true, decide_eq_true_eq]; omega)]
  rw [if_pos (by simp only [Bool.and_eq_true, decide_eq_true_eq]; exact ⟨h1, h2⟩)]
  dsimp only [List.headD, List.tail, List.length]
  rw [if_pos (by
    simp only [Bool.and_eq_true, decide_eq_true_eq]
    exact ⟨⟨⟨⟨⟨by omega, h3, h4⟩, h5, h6⟩, h7, h8⟩, h9⟩, h10⟩)]

/-- Decoding inverts encoding: the strict UTF-8 decoder returns exactly
the encoded characters whenever the fuel exceeds their number. -/
theorem utf8DecodeGo_encode : ∀ (cs : List Char) (fuel : ℕ),
    cs.length < fuel →
    utf8DecodeGo fuel (utf8EncodeChars cs) = some cs := by
  intro cs
  induction cs with
  | nil =>
      intro fuel hf
      match fuel, hf with
      | fuel + 1, _ => rfl
  | cons c cs ih =>
      intro fuel hf
      match fuel, hf with
      | fuel + 1, hf =>
        have hfu : cs.length < fuel := by
          simp only [List.length_cons] at hf
          omega
        have hv := char_valid_ranges c
        have hEnc : utf8EncodeChars (c :: cs)
            = utf8EncodeChar c.toNat ++ utf8EncodeChars cs := by
          simp [utf8EncodeChars]
        rw [hEnc]
        by_cases h1 : c.toNat < 128
        · rw [show utf8EncodeChar c.toNat = [c.toNat] from by
            simp [utf8EncodeChar, h1]]
          rw [List.cons_append, List.nil_append,
            utf8DecodeGo_one fuel c.toNat _ h1, ih fuel hfu]
          simp only [Option.map_some']
          rw [Char.ofNat_toNat]
        · by_cases h2 : c.toNat < 2048
          · rw [show utf8EncodeChar c.toNat
                = [192 + c.toNat / 64, 128 + c.toNat % 64] from by
              simp [utf8EncodeChar, h1, h2]]
            simp only [List.cons_append, List.nil_append]
            rw [utf8DecodeGo_two fuel _ _ _ (by omega) (by omega)
              (by omega) (by omega), ih fuel hfu]
            simp only [Option.map_some']
            have harg : (192 + c.toNat / 64 - 192) * 64
                + (128 + c.toNat % 64 - 128) = c.toNat := by omega
            rw [harg, Char.ofNat_toNat]
          · by_cases h3 : c.toNat < 65536
            · rw [show utf8EncodeChar c.toNat
                  = [224 + c.toNat / 4096, 128 + (c.toNat / 64) % 64,
                     128 + c.toNat % 64] from by
                simp [utf8EncodeChar, h1, h2, h3]]
              simp only [List.cons_append, List.nil_append]
              rw [utf8DecodeGo_three fuel _ _ _ _ (by omega) (by omega)
                (by omega) (by omega) (by omega) (by omega) (by omega)
                (by omega), ih fuel hfu]
              simp only [Option.map_some']
              have harg : (224 + c.toNat / 4096 - 224) * 4096
                  + (128 + (c.toNat / 64) % 64 - 128) * 64
                  + (128 + c.toNat % 64 - 128) = c.toNat := by omega
              rw [harg, Char.ofNat_toNat]
            · have hcv : c.toNat < 1114112 := by
                rcases hv with h | h
                · omega
                · omega
              rw [show utf8EncodeChar c.toNat
                  = [240 + c.toNat / 262144, 128 + (c.toNat / 4096) % 64,
                     128 + (c.toNat / 64) % 64, 128 + c.toNat % 64] from by
                simp [utf8EncodeChar, h1, h2, h3]]
              simp only [List.cons_append, List.nil_append]
              rw [utf8DecodeGo_four fuel _ _ _ _ _ (by omega) (by omega)
                (by omega) (by omega) (by omega) (by omega) (by omega)
                (by omega) (by omega) (by omega), ih fuel hfu]
              simp only [Option.map_some']
              have harg : (240 + c.toNat / 262144 - 240) * 262144
                  + (128 + (c.toNat / 4096) % 64 - 128) * 4096
                  + (128 + (c.toNat / 64) % 64 - 128) * 64
                  + (128 + c.toNat % 64 - 128) = c.toNat := by omega
              rw [harg, Char.ofNat_toNat]

/-- Every character encodes to at least one byte. -/
theorem length_le_utf8EncodeChars : ∀ (cs : List Char),
    cs.length ≤ (utf8EncodeChars cs).length := by
  intro cs
  induction cs with
  | nil => simp [utf8EncodeChars]
  | cons c cs ih =>
      have hEnc : utf8EncodeChars (c :: cs)
          = utf8EncodeChar c.toNat ++ utf8EncodeChars cs := by
        simp [utf8EncodeChars]
      have hpos : 1 ≤ (utf8EncodeChar c.toNat).length := by
        rw [utf8EncodeChar]
        split
        · simp
        · split
          · simp
          · split
            · simp
            · simp
      rw [hEnc]
      simp only [List.length_append, List.length_cons]
      omega

/-- bytes.decode("utf-8") inverts str.encode("utf-8"). -/
theorem utf8Decode_strBytes (s : String) : utf8Decode (strBytes s) = some s := by
  have h := utf8DecodeGo_encode s.data ((strBytes s).length + 1)
    (by have := length_le_utf8EncodeChars s.data; simp only [strBytes]; omega)
  rw [utf8Decode]
  rw [show utf8DecodeGo ((strBytes s).length + 1) (strBytes s)
    = some s.data from h]
  rfl

/-- A length-prefixed segment spells out its four length bytes, and its
payload fits the u32 length field. -/
theorem lenPrefixed_eq_some (bs p : List ℕ) (h : lenPrefixed bs = some p) :
    bs.length < 4294967296 ∧
    p = [bs.length % 256, bs.length / 256 % 256, bs.length / 65536 % 256,
         bs.length / 16777216 % 256] ++ bs := by
  rw [lenPrefixed, packU32] at h
  by_cases hlt : bs.length < 4294967296
  · rw [if_pos hlt] at h
    simp only [Option.map_some', Option.some.injEq] at h
    exact ⟨hlt, h.symm⟩
  · rw [if_neg hlt] at h
    simp at h

/-- Reading a string field inverts length-prefixing its UTF-8 bytes. -/
theorem readStrField_lenPrefixed (s : String) (p rest : List ℕ)
    (h : lenPrefixed (strBytes s) = some p) :
    readStrField (p ++ rest) = some (s, rest) := by
  obtain ⟨hlt, hp⟩ := lenPrefixed_eq_some _ _ h
  subst hp
  rw [readStrField]
  rw [List.append_assoc, readU32_pack _ _ hlt]
  simp only [Option.bind_eq_bind, Option.some_bind]
  rw [List.take_left, List.drop_left, utf8Decode_strBytes]
  rfl

/-- The enum lookup inverts the wire byte of every message type. -/
theorem messageType_ofByte_toByte (mt : MessageType) :
    MessageType.ofByte mt.toByte = some mt := by
  cases mt <;> rfl

theorem digitsToNat_append_digit (ds : List Char) (d : Char) :
    digitsToNat (ds ++ [d]) = 10 * digitsToNat ds + (d.toNat - 48) := by
  rw [digitsToNat, digitsToNat, List.foldl_append]
  simp [List.foldl]
  omega

theorem foldl_digit_replicate_zero (k : ℕ) :
    List.foldl (fun n c => n * 10 + (c.toNat - 48)) 0
      (List.replicate k '0') = 0 := by
  induction k with
  | zero => rfl
  | succ k ih =>
      rw [List.replicate_succ, List.foldl_cons]
      simpa using ih

theorem digitsToNat_replicate_zero (k : ℕ) (ds : List Char) :
    digitsToNat (List.replicate k '0' ++ ds) = digitsToNat ds := by
  rw [digitsToNat, digitsToNat, List.foldl_append, foldl_digit_replicate_zero]

theorem natDigitsGo_spec : ∀ (fuel n : ℕ), n < fuel →
    (∀ c ∈ natDigitsGo fuel n, c.isDigit = true) ∧
    digitsToNat (natDigitsGo fuel n) = n ∧
    (∃ k t, natDigitsGo fuel n = Char.ofNat (48 + k) :: t ∧ k < 10
       ∧ (n ≠ 0 → k ≠ 0) ∧ (n = 0 → t = [])) ∧
    (∀ q, n < 10 ^ (q + 1) → (natDigitsGo fuel n).length ≤ q + 1) := by
  intro fuel
  induction fuel with
  | zero => intro n hn; omega
  | succ fuel ih =>
      intro n hn
      by_cases h10 : n < 10
      · rw [natDigitsGo, if_pos h10]
        have htn : (Char.ofNat (48 + n)).toNat = 48 + n :=
          char_toNat_ofNat_small _ (by omega)
        refine ⟨?_, ?_, ⟨n, [], rfl, h10, fun h => ?_, fun _ => rfl⟩, ?_⟩
        · intro c hc
          simp only [List.mem_singleton] at hc
          subst hc
          rw [char_isDigit_iff, htn]
          omega
        · simp [digitsToNat, htn]
        · intro hk
          exact h (by omega)
        · intro q hq
          simp
      · rw [natDigitsGo, if_neg h10]
        have hrec : n / 10 < fuel := by omega
        obtain ⟨hdig, hval, ⟨k, t, hcons, hk, hk0, ht⟩, hlen⟩ := ih (n / 10) hrec
        have htn : (Char.ofNat (48 + n % 10)).toNat = 48 + n % 10 :=
          char_toNat_ofNat_small _ (by omega)
        refine ⟨?_, ?_, ⟨k, t ++ [Char.ofNat (48 + n % 10)], ?_, hk,
          fun _ => hk0 (by omega), fun h => absurd h (by omega)⟩, ?_⟩
        · intro c hc
          rw [List.mem_append] at hc
          rcases hc with hc | hc
          · exact hdig c hc
          · simp only [List.mem_singleton] at hc
            subst hc
            rw [char_isDigit_iff, htn]
            omega
        · rw [digitsToNat_append_digit, hval, htn]
          omega
        · rw [hcons]
          rfl
        · intro q hq
          cases q with
          | zero => omega
          | succ q =>
              have hq2 : n / 10 < 10 ^ (q + 1) := by
                rw [Nat.div_lt_iff_lt_mul (by omega)]
                calc n < 10 ^ (q + 1 + 1) := hq
                _ = 10 ^ (q + 1) * 10 := by ring
              have := hlen q hq2
              simp only [List.length_append, List.length_singleton]
              omega

theorem natDigits_spec (n : ℕ) :
    (∀ c ∈ natDigits n, c.isDigit = true) ∧
    digitsToNat (natDigits n) = n ∧
    (∃ k t, natDigits n = Char.ofNat (48 + k) :: t ∧ k < 10
       ∧ (n ≠ 0 → k ≠ 0) ∧ (n = 0 → t = [])) ∧
    (∀ q, n < 10 ^ (q + 1) → (natDigits n).length ≤ q + 1) :=
  natDigitsGo_spec (n + 1) n (by omega)

theorem sepOk_not_digit (rest : List Char) (h : sepOk rest) :
    ∀ c t, rest = c :: t → Char.isDigit c = false := by
  intro c t hct
  rw [hct] at h
  exact h.1

theorem no_leading_zero (n : ℕ) :
    (decide (1 < (natDigits n).length)
      && ((natDigits n).headD ' ' == '0')) = false := by
  obtain ⟨-, -, ⟨k, t, hcons, hk, hk0, ht⟩, -⟩ := natDigits_spec n
  cases ht2 : t with
  | nil =>
      rw [hcons, ht2]
      simp
  | cons c2 t2 =>
      have ha : n ≠ 0 := by
        intro h0
        rw [ht h0] at ht2
        exact List.noConfusion ht2
      have hk2 := hk0 ha
      rw [hcons]
      simp only [List.headD_cons, Bool.and_eq_false_iff]
      right
      rw [beq_eq_false_iff_ne]
      intro hc
      rw [char_eq_iff_toNat] at hc
      rw [char_toNat_ofNat_small _ (by omega)] at hc
      have h48 : ('0' : Char).toNat = 48 := rfl
      omega

theorem natDigits_ne_empty (n : ℕ) :
    ((natDigits n).isEmpty = true) → False := by
  obtain ⟨-, -, ⟨k, t, hcons, -, -, -⟩, -⟩ := natDigits_spec n
  rw [hcons]
  simp

theorem rest_e_check (rest : List Char) (h : sepOk rest) :
    ((rest.headD ' ' == 'e') || (rest.headD ' ' == 'E')) = false := by
  cases rest with
  | nil => rfl
  | cons c t =>
      simp only [List.headD_cons, Bool.or_eq_false_iff]
      constructor
      · rw [beq_eq_false_iff_ne]
        exact h.2.2.1
      · rw [beq_eq_false_iff_ne]
        exact h.2.2.2

theorem digit_head_not_minus (k : ℕ) (hk : k < 10) (t : List Char) :
    ((Char.ofNat (48 + k) :: t).headD ' ' == '-') = false := by
  simp only [List.headD_cons]
  rw [beq_eq_false_iff_ne]
  intro hc
  rw [char_eq_iff_toNat] at hc
  rw [char_toNat_ofNat_small _ (by omega)] at hc
  have h45 : ('-' : Char).toNat = 45 := rfl
  omega

theorem parseNum_renderNum (m : ℤ) (p : ℕ) (rest : List Char)
    (h : sepOk rest) :
    parseNum (renderNum m p ++ rest) = some (.jnum m p, rest) := by
  have hrest := sepOk_not_digit rest h
  by_cases hp : p = 0
  · subst hp
    obtain ⟨hdig, hval, ⟨k, t, hcons, hk, hk0, ht⟩, hlen⟩ :=
      natDigits_spec m.natAbs
    obtain ⟨htk, hdr⟩ := takeWhile_append_of Char.isDigit
      (natDigits m.natAbs) rest hdig hrest
    have hno0 := no_leading_zero m.natAbs
    by_cases hm : m < 0
    · have hrn : renderNum m 0 = ['-'] ++ natDigits m.natAbs := by
        dsimp only [renderNum]
        rw [if_pos hm, if_pos rfl]
      rw [hrn]
      dsimp only [parseNum]
      simp only [List.nil_append, List.cons_append, List.headD_cons,
        List.tail_cons]
      rw [show (('-' : Char) == '-') = true from rfl]
      simp only [if_true, if_pos]
      split
      · next heq =>
          rw [htk] at heq
          exact (natDigits_ne_empty _ heq).elim
      · next heq =>
          split
          · next hz =>
              rw [htk, hno0] at hz
              exact absurd hz Bool.false_ne_true
          · next hz =>
              rw [hdr]
              split
              · exact absurd rfl h.2.1
              · exact absurd rfl h.2.2.1
              · exact absurd rfl h.2.2.2
              · rw [htk, hval]
                simp only [Option.some.injEq, Prod.mk.injEq, JVal.jnum.injEq]
                refine ⟨⟨by omega, trivial⟩, trivial⟩
    · have hrn : renderNum m 0 = natDigits m.natAbs := by
        dsimp only [renderNum]
        rw [if_neg hm, if_pos rfl, List.nil_append]
      rw [hrn]
      dsimp only [parseNum]
      rw [hcons, List.cons_append]
      rw [digit_head_not_minus k hk _]
      simp only [Bool.false_eq_true, if_false]
      rw [← List.cons_append, ← hcons]
      split
      · next heq =>
          rw [htk] at heq
          exact (natDigits_ne_empty _ heq).elim
      · next heq =>
          split
          · next hz =>
              rw [htk, hno0] at hz
              exact absurd hz Bool.false_ne_true
          · next hz =>
              rw [hdr]
              split
              · exact absurd rfl h.2.1
              · exact absurd rfl h.2.2.1
              · exact absurd rfl h.2.2.2
              · rw [htk, hval]
                simp only [Option.some.injEq, Prod.mk.injEq, JVal.jnum.injEq]
                refine ⟨⟨by omega, trivial⟩, trivial⟩
  · obtain ⟨q, rfl⟩ : ∃ q, p = q + 1 := ⟨p - 1, by omega⟩
    obtain ⟨hdig1, hval1, ⟨k1, t1, hcons1, hk1, hk01, ht1⟩, hlen1⟩ :=
      natDigits_spec (m.natAbs / 10 ^ (q + 1))
    obtain ⟨hdig2, hval2, ⟨k2, t2, hcons2, hk2, hk02, ht2⟩, hlen2⟩ :=
      natDigits_spec (m.natAbs % 10 ^ (q + 1))
    have hmod : m.natAbs % 10 ^ (q + 1) < 10 ^ (q + 1) :=
      Nat.mod_lt _ (by positivity)
    have hfdlen : (natDigits (m.natAbs % 10 ^ (q + 1))).length ≤ q + 1 :=
      hlen2 q hmod
    set fd := natDigits (m.natAbs % 10 ^ (q + 1)) with hfd
    set frac := List.replicate (q + 1 - fd.length) '0' ++ fd with hfrac
    have hfraclen : frac.length = q + 1 := by
      rw [hfrac]
      simp only [List.length_append, List.length_replicate]
      omega
    have hfracdig : ∀ c ∈ frac, Char.isDigit c = true := by
      intro c hc
      rw [hfrac, List.mem_append] at hc
      rcases hc with hc | hc
      · rw [List.mem_replicate] at hc
        rw [hc.2]
        decide
      · exact hdig2 c hc
    have hfracval : digitsToNat frac = m.natAbs % 10 ^ (q + 1) := by
      rw [hfrac, digitsToNat_replicate_zero, hval2]
    have hfracne : ¬ (frac.isEmpty = true) := by
      intro h0
      rw [List.isEmpty_iff] at h0
      rw [h0] at hfraclen
      simp at hfraclen
    obtain ⟨htk1, hdr1⟩ := takeWhile_append_of Char.isDigit
      (natDigits (m.natAbs / 10 ^ (q + 1))) ('.' :: (frac ++ rest)) hdig1
      (by intro c t hct; rw [List.cons.injEq] at hct; rw [← hct.1]; decide)
    obtain ⟨htk2, hdr2⟩ := takeWhile_append_of Char.isDigit frac rest
      hfracdig hrest
    have hno0 := no_leading_zero (m.natAbs / 10 ^ (q + 1))
    have hecheck := rest_e_check rest h
    have hrn : renderNum m (q + 1) ++ rest
        = (if m < 0 then ['-'] else [])
          ++ (natDigits (m.natAbs / 10 ^ (q + 1)) ++ '.' :: (frac ++ rest)) := by
      dsimp only [renderNum]
      rw [if_neg (by omega : ¬ (q + 1 = 0))]
      rw [← hfd, ← hfrac]
      simp only [List.append_assoc, List.cons_append]
    rw [hrn]
    by_cases hm : m < 0
    · rw [if_pos hm]
      dsimp only [parseNum]
      simp only [List.nil_append, List.cons_append, List.headD_cons,
        List.tail_cons]
      rw [show (('-' : Char) == '-') = true from rfl]
      simp only [if_true, if_pos]
      rw [htk1, hdr1]
      split
      · next heq =>
          exact (natDigits_ne_empty _ heq).elim
      · next heq =>
          split
          · next hz =>
              rw [hno0] at hz
              exact absurd hz Bool.false_ne_true
          · next hz =>
              split
              · next r2 heq2 =>
                  rw [List.cons.injEq] at heq2
                  obtain ⟨-, hr2⟩ := heq2
                  subst hr2
                  rw [htk2, hdr2, if_neg hfracne, hecheck]
                  simp only [Bool.false_eq_true, if_false]
                  rw [hval1, hfracval, hfraclen]
                  simp only [Option.some.injEq, Prod.mk.injEq,
                    JVal.jnum.injEq]
                  refine ⟨⟨?_, trivial⟩, trivial⟩
                  rw [show m.natAbs / 10 ^ (q + 1) * 10 ^ (q + 1)
                      + m.natAbs % 10 ^ (q + 1) = m.natAbs from
                    by rw [Nat.mul_comm]; exact Nat.div_add_mod _ _]
                  omega
              all_goals try (next heq9 => simp at heq9)
              next h0 h1 h2 h3 => exact ((h1 _ rfl).elim)
    · rw [if_neg hm, List.nil_append]
      rw [hcons1, List.cons_append]
      dsimp only [parseNum]
      rw [digit_head_not_minus k1 hk1 _]
      simp only [Bool.false_eq_true, if_false]
      rw [← List.cons_append, ← hcons1]
      rw [htk1, hdr1]
      split
      · next heq =>
          exact (natDigits_ne_empty _ heq).elim
      · next heq =>
          split
          · next hz =>
              rw [hno0] at hz
              exact absurd hz Bool.false_ne_true
          · next hz =>
              split
              · next r2 heq2 =>
                  rw [List.cons.injEq] at heq2
                  obtain ⟨-, hr2⟩ := heq2
                  subst hr2
                  rw [htk2, hdr2, if_neg hfracne, hecheck]
                  simp only [Bool.false_eq_true, if_false]
                  rw [hval1, hfracval, hfraclen]
                  simp only [Option.some.injEq, Prod.mk.injEq,
                    JVal.jnum.injEq]
                  refine ⟨⟨?_, trivial⟩, trivial⟩
                  rw [show m.natAbs / 10 ^ (q + 1) * 10 ^ (q + 1)
                      + m.natAbs % 10 ^ (q + 1) = m.natAbs from
                    by rw [Nat.mul_comm]; exact Nat.div_add_mod _ _]
                  omega
              all_goals try (next heq9 => simp at heq9)
              next h0 h1 h2 h3 => exact ((h1 _ rfl).elim)

theorem parseStrGo_escape : ∀ (cs : List Char) (fuel : ℕ) (rest : List Char),
    cs.length < fuel →
    parseStrGo fuel ((cs.map (fun c => escapeChar c.toNat)).flatten
      ++ '"' :: rest) = some (cs, rest) := by
  intro cs
  induction cs with
  | nil =>
      intro fuel rest hf
      match fuel, hf with
      | fuel + 1, _ => rfl
  | cons c cs ih =>
      intro fuel rest hf
      match fuel, hf with
      | fuel + 1, hf =>
        have hfu : cs.length < fuel := by
          simp only [List.length_cons] at hf
          omega
        have hv := char_valid_ranges c
        have hflat : ((c :: cs).map (fun c => escapeChar c.toNat)).flatten
            = escapeChar c.toNat
              ++ (cs.map (fun c => escapeChar c.toNat)).flatten := by
          simp
        rw [hflat, List.append_assoc]
        set tail := (cs.map (fun c => escapeChar c.toNat)).flatten
          ++ '"' :: rest with htail
        by_cases h34 : c.toNat = 34
        · have hc : c = '"' := by
            rw [char_eq_iff_toNat, h34]
            rfl
          rw [h34]
          rw [show escapeChar 34 = ['\\', '"'] from rfl]
          rw [show (['\\', '"'] : List Char) ++ tail = '\\' :: '"' :: tail
            from rfl]
          rw [parseStrGo]
          rw [if_neg (by decide), if_pos rfl]
          dsimp only
          rw [if_neg (by decide)]
          rw [show unescape '"' = some '"' from rfl]
          dsimp only
          rw [ih fuel rest hfu]
          simp only [Option.map_some', Option.some.injEq, Prod.mk.injEq]
          exact ⟨by rw [hc], trivial⟩
        · have twoChar : ∀ (X c2 : Char), ¬ X = 'u' → unescape X = some c2 →
              c2 = c →
              parseStrGo (fuel + 1) ('\\' :: X :: tail) = some (c :: cs, rest) := by
            intro X c2 hXu hun hc2
            rw [parseStrGo]
            rw [if_neg (by decide), if_pos rfl]
            dsimp only
            rw [if_neg hXu, hun]
            dsimp only
            rw [ih fuel rest hfu]
            simp only [Option.map_some', Option.some.injEq, Prod.mk.injEq]
            exact ⟨by rw [hc2], trivial⟩
          have uEsc : ∀ (n : ℕ), n < 65536 → ¬ (55296 ≤ n ∧ n < 57344) →
              n = c.toNat →
              parseStrGo (fuel + 1) ('\\' :: 'u' :: (hex4 n ++ tail))
                = some (c :: cs, rest) := by
            intro n hn hns hnc
            rw [show hex4 n ++ tail
              = hexDigitChar (n / 4096 % 16) :: hexDigitChar (n / 256 % 16)
                :: hexDigitChar (n / 16 % 16) :: hexDigitChar (n % 16)
                :: tail from by simp [hex4]]
            rw [parseStrGo]
            rw [if_neg (by decide), if_pos rfl]
            dsimp only
            rw [if_pos rfl]
            simp only [List.headD_cons, List.tail_cons]
            rw [if_pos (by simp only [List.length_cons]; omega)]
            rw [hex4Val_hex4 n hn]
            dsimp only
            rw [if_neg (by
              simp only [Bool.and_eq_true, decide_eq_true_eq]
              omega)]
            rw [if_neg (by
              simp only [Bool.and_eq_true, decide_eq_true_eq]
              omega)]
            rw [ih fuel rest hfu]
            simp only [Option.map_some', Option.some.injEq, Prod.mk.injEq]
            constructor
            · rw [hnc, Char.ofNat_toNat]
            · trivial
          by_cases h92 : c.toNat = 92
          · have hc : c = '\\' := by
              rw [char_eq_iff_toNat, h92]
              rfl
            rw [h92]
            rw [show escapeChar 92 = ['\\', '\\'] from rfl]
            rw [show (['\\', '\\'] : List Char) ++ tail
              = '\\' :: '\\' :: tail from rfl]
            exact twoChar '\\' '\\' (by decide) rfl hc.symm
          by_cases h8 : c.toNat = 8
          · rw [h8]
            rw [show escapeChar 8 = ['\\', 'b'] from rfl]
            rw [show (['\\', 'b'] : List Char) ++ tail
              = '\\' :: 'b' :: tail from rfl]
            refine twoChar 'b' (Char.ofNat 8) (by decide) rfl ?_
            rw [char_eq_iff_toNat, char_toNat_ofNat_small _ (by omega), h8]
          by_cases h9 : c.toNat = 9
          · rw [h9]
            rw [show escapeChar 9 = ['\\', 't'] from rfl]
            rw [show (['\\', 't'] : List Char) ++ tail
              = '\\' :: 't' :: tail from rfl]
            refine twoChar 't' '\t' (by decide) rfl ?_
            rw [char_eq_iff_toNat, h9]
            rfl
          by_cases h10 : c.toNat = 10
          · rw [h10]
            rw [show escapeChar 10 = ['\\', 'n'] from rfl]
            rw [show (['\\', 'n'] : List Char) ++ tail
              = '\\' :: 'n' :: tail from rfl]
            refine twoChar 'n' '\n' (by decide) rfl ?_
            rw [char_eq_iff_toNat, h10]
            rfl
          by_cases h12 : c.toNat = 12
          · rw [h12]
            rw [show escapeChar 12 = ['\\', 'f'] from rfl]
            rw [show (['\\', 'f'] : List Char) ++ tail
              = '\\' :: 'f' :: tail from rfl]
            refine twoChar 'f' (Char.ofNat 12) (by decide) rfl ?_
            rw [char_eq_iff_toNat, char_toNat_ofNat_small _ (by omega), h12]
          by_cases h13 : c.toNat = 13
          · rw [h13]
            rw [show escapeChar 13 = ['\\', 'r'] from rfl]
            rw [show (['\\', 'r'] : List Char) ++ tail
              = '\\' :: 'r' :: tail from rfl]
            refine twoChar 'r' (Char.ofNat 13) (by decide) rfl ?_
            rw [char_eq_iff_toNat, char_toNat_ofNat_small _ (by omega), h13]
          by_cases hlt32 : c.toNat < 32
          · rw [show escapeChar c.toNat = '\\' :: 'u' :: hex4 c.toNat from by
              rw [escapeChar]
              rw [if_neg h34, if_neg h92, if_neg h8, if_neg h9, if_neg h10,
                if_neg h12, if_neg h13, if_pos hlt32]]
            rw [List.cons_append, List.cons_append]
            exact uEsc c.toNat (by omega) (by omega) rfl
          by_cases hlt127 : c.toNat < 127
          · rw [show escapeChar c.toNat = [Char.ofNat c.toNat] from by
              rw [escapeChar]
              rw [if_neg h34, if_neg h92, if_neg h8, if_neg h9, if_neg h10,
                if_neg h12, if_neg h13, if_neg hlt32, if_pos hlt127]]
            rw [Char.ofNat_toNat]
            rw [show [c] ++ tail = c :: tail from rfl]
            rw [parseStrGo.eq_def]
            dsimp only
            rw [if_neg (fun h => h34 (by rw [h]; rfl))]
            rw [if_neg (fun h => h92 (by rw [h]; rfl))]
            rw [if_neg hlt32]
            rw [ih fuel rest hfu]
            simp only [Option.map_some']
          by_cases hlt65536 : c.toNat < 65536
          · rw [show escapeChar c.toNat = '\\' :: 'u' :: hex4 c.toNat from by
              rw [escapeChar]
              rw [if_neg h34, if_neg h92, if_neg h8, if_neg h9, if_neg h10,
                if_neg h12, if_neg h13, if_neg hlt32, if_neg hlt127,
                if_pos hlt65536]]
            rw [List.cons_append, List.cons_append]
            exact uEsc c.toNat (by omega) (by omega) rfl
          · have hge : 65536 ≤ c.toNat := by omega
            have hcv : c.toNat < 1114112 := by
              rcases hv with h | h
              · omega
              · omega
            rw [show escapeChar c.toNat
                = ('\\' :: 'u' :: hex4 (55296 + (c.toNat - 65536) / 1024))
                  ++ ('\\' :: 'u' :: hex4 (56320 + (c.toNat - 65536) % 1024))
                from by
              rw [escapeChar]
              rw [if_neg h34, if_neg h92, if_neg h8, if_neg h9, if_neg h10,
                if_neg h12, if_neg h13, if_neg hlt32, if_neg hlt127,
                if_neg hlt65536]]
            have hhi : 55296 + (c.toNat - 65536) / 1024 < 56320 := by omega
            have hlo : 56320 + (c.toNat - 65536) % 1024 < 57344 := by omega
            rw [show (('\\' :: 'u' :: hex4 (55296 + (c.toNat - 65536) / 1024))
                ++ ('\\' :: 'u' :: hex4 (56320 + (c.toNat - 65536) % 1024)))
                ++ tail
              = '\\' :: 'u' :: (hex4 (55296 + (c.toNat - 65536) / 1024)
                ++ ('\\' :: 'u' :: (hex4 (56320 + (c.toNat - 65536) % 1024)
                  ++ tail))) from by simp]
            have surro : ∀ (n n2 : ℕ), 55296 ≤ n → n < 56320 →
                56320 ≤ n2 → n2 < 57344 →
                Char.ofNat (65536 + (n - 55296) * 1024 + (n2 - 56320)) = c →
                parseStrGo (fuel + 1)
                  ('\\' :: 'u' :: (hex4 n
                    ++ ('\\' :: 'u' :: (hex4 n2 ++ tail))))
                  = some (c :: cs, rest) := by
              intro n n2 hn1 hn2 hn3 hn4 hchar
              rw [show hex4 n ++ ('\\' :: 'u' :: (hex4 n2 ++ tail))
                = hexDigitChar (n / 4096 % 16) :: hexDigitChar (n / 256 % 16)
                  :: hexDigitChar (n / 16 % 16) :: hexDigitChar (n % 16)
                  :: '\\' :: 'u' :: (hex4 n2 ++ tail) from by simp [hex4]]
              rw [show hex4 n2 ++ tail
                = hexDigitChar (n2 / 4096 % 16) :: hexDigitChar (n2 / 256 % 16)
                  :: hexDigitChar (n2 / 16 % 16) :: hexDigitChar (n2 % 16)
                  :: tail from by simp [hex4]]
              rw [parseStrGo]
              rw [if_neg (by decide), if_pos rfl]
              dsimp only
              rw [if_pos rfl]
              simp only [List.headD_cons, List.tail_cons]
              rw [if_pos (by simp only [List.length_cons]; omega)]
              rw [hex4Val_hex4 _ (by omega)]
              dsimp only
              rw [if_pos (by
                simp only [Bool.and_eq_true, decide_eq_true_eq]
                omega)]
              rw [if_pos (by
                simp only [List.length_cons, Bool.and_eq_true,
                  decide_eq_true_eq]
                refine ⟨⟨trivial, trivial⟩, by omega⟩)]
              rw [hex4Val_hex4 _ (by omega)]
              dsimp only
              rw [if_pos (by
                simp only [Bool.and_eq_true, decide_eq_true_eq]
                omega)]
              rw [ih fuel rest hfu]
              simp only [Option.map_some', Option.some.injEq, Prod.mk.injEq]
              exact ⟨by rw [hchar], trivial⟩
            refine surro (55296 + (c.toNat - 65536) / 1024)
              (56320 + (c.toNat - 65536) % 1024)
              (by omega) (by omega) (by omega) (by omega) ?_
            rw [show 65536 + (55296 + (c.toNat - 65536) / 1024 - 55296)
                * 1024 + (56320 + (c.toNat - 65536) % 1024 - 56320)
              = c.toNat from by omega]
            rw [Char.ofNat_toNat]

theorem escapeChar_ne_nil (n : ℕ) : 1 ≤ (escapeChar n).length := by
  rw [escapeChar]
  split
  · simp
  · split
    · simp
    · split
      · simp
      · split
        · simp
        · split
          · simp
          · split
            · simp
            · split
              · simp
              · split
                · simp
                · split
                  · simp
                  · split
                    · simp
                    · simp

theorem length_le_escape (cs : List Char) :
    cs.length ≤ ((cs.map (fun c => escapeChar c.toNat)).flatten).length := by
  induction cs with
  | nil => simp
  | cons c cs ih =>
      have h1 := escapeChar_ne_nil c.toNat
      simp only [List.map_cons, List.flatten_cons, List.length_append,
        List.length_cons]
      omega

theorem parseStr_escape (cs : List Char) (rest : List Char) :
    parseStr ((cs.map (fun c => escapeChar c.toNat)).flatten ++ '"' :: rest)
      = some (cs, rest) := by
  apply parseStrGo_escape
  have := length_le_escape cs
  simp only [List.length_append, List.length_cons]
  omega

theorem alistSet_append {α : Type} : ∀ (l : List (String × α)) (k : String)
    (v : α), (∀ p ∈ l, p.1 ≠ k) → alistSet l k v = l ++ [(k, v)] := by
  intro l
  induction l with
  | nil => intro k v h; rfl
  | cons p t ih =>
      intro k v h
      obtain ⟨k0, v0⟩ := p
      rw [alistSet]
      rw [if_neg (h (k0, v0) (List.mem_cons_self _ _))]
      rw [ih k v (fun q hq => h q (List.mem_cons_of_mem _ hq))]
      rfl

theorem pyDict_go_nodup : ∀ (l acc : List (String × JVal)),
    ((acc ++ l).map Prod.fst).Nodup →
    l.foldl (fun acc kv => alistSet acc kv.1 kv.2) acc = acc ++ l := by
  intro l
  induction l with
  | nil => intro acc h; simp
  | cons kv t ih =>
      intro acc h
      obtain ⟨k, v⟩ := kv
      rw [List.foldl_cons]
      have hk : ∀ p ∈ acc, p.1 ≠ k := by
        intro p hp hpk
        simp only [List.map_append, List.nodup_append] at h
        have h1 : p.1 ∈ acc.map Prod.fst := List.mem_map_of_mem _ hp
        exact h.2.2 h1 (by rw [hpk]; simp)
      rw [alistSet_append acc k v hk]
      have h2 : (((acc ++ [(k, v)]) ++ t).map Prod.fst).Nodup := by
        rw [List.append_assoc]
        simpa using h
      rw [ih (acc ++ [(k, v)]) h2]
      simp

theorem pyDict_nodup (l : List (String × JVal))
    (h : (l.map Prod.fst).Nodup) : pyDict l = l := by
  rw [pyDict, pyDict_go_nodup l [] (by simpa using h)]
  rfl

theorem digit_not_special (k : ℕ) (hk : k < 10) :
    isWsChar (Char.ofNat (48 + k)) = false ∧ ¬ Char.ofNat (48 + k) = ']' := by
  interval_cases k <;> exact ⟨by decide, by decide⟩

/-- The first character of any rendered value is neither whitespace nor
a closing bracket. -/
theorem dumpsJ_head (v : JVal) :
    ∃ c t, dumpsJ v = c :: t ∧ isWsChar c = false ∧ ¬ c = ']' := by
  cases v with
  | jnull => exact ⟨'n', _, rfl, by decide, by decide⟩
  | jbool b =>
      cases b with
      | false => exact ⟨'f', _, rfl, by decide, by decide⟩
      | true => exact ⟨'t', _, rfl, by decide, by decide⟩
  | jstr s => exact ⟨'"', _, rfl, by decide, by decide⟩
  | jarr xs =>
      cases xs with
      | nil => exact ⟨'[', _, rfl, by decide, by decide⟩
      | cons x xs => exact ⟨'[', _, rfl, by decide, by decide⟩
  | jobj kvs =>
      cases kvs with
      | nil => exact ⟨lbrace, _, rfl, by decide, by decide⟩
      | cons kv kvs =>
          obtain ⟨k, v⟩ := kv
          exact ⟨lbrace, _, rfl, by decide, by decide⟩
  | jnum m p =>
      by_cases hm : m < 0
      · by_cases hp : p = 0
        · have hd : dumpsJ (.jnum m p) = '-' :: natDigits m.natAbs := by
            dsimp only [dumpsJ, renderNum]
            rw [if_pos hp, if_pos hm]
            rfl
          exact ⟨'-', _, hd, by decide, by decide⟩
        · have hd : dumpsJ (.jnum m p)
              = '-' :: (natDigits (m.natAbs / 10 ^ p)
                ++ '.' :: (List.replicate
                    (p - (natDigits (m.natAbs % 10 ^ p)).length) '0'
                  ++ natDigits (m.natAbs % 10 ^ p))) := by
            dsimp only [dumpsJ, renderNum]
            rw [if_neg hp, if_pos hm]
            rfl
          exact ⟨'-', _, hd, by decide, by decide⟩
      · by_cases hp : p = 0
        · obtain ⟨-, -, ⟨k, t, hcons, hk, -, -⟩, -⟩ :=
            natDigits_spec m.natAbs
          obtain ⟨hws, hbr⟩ := digit_not_special k hk
          refine ⟨Char.ofNat (48 + k), t, ?_, hws, hbr⟩
          dsimp only [dumpsJ, renderNum]
          rw [if_pos hp, if_neg hm, List.nil_append, hcons]
        · obtain ⟨-, -, ⟨k, t, hcons, hk, -, -⟩, -⟩ :=
            natDigits_spec (m.natAbs / 10 ^ p)
          obtain ⟨hws, hbr⟩ := digit_not_special k hk
          have hd : dumpsJ (.jnum m p)
              = Char.ofNat (48 + k) :: (t
                ++ '.' :: (List.replicate
                    (p - (natDigits (m.natAbs % 10 ^ p)).length) '0'
                  ++ natDigits (m.natAbs % 10 ^ p))) := by
            dsimp only [dumpsJ, renderNum]
            rw [if_neg hp, if_neg hm, List.nil_append, hcons,
              List.cons_append]
          exact ⟨Char.ofNat (48 + k), _, hd, hws, hbr⟩

theorem skipWs_dumpsJ (v : JVal) (rest : List Char) :
    skipWs (dumpsJ v ++ rest) = dumpsJ v ++ rest := by
  obtain ⟨c, t, hc, hws, -⟩ := dumpsJ_head v
  apply skipWs_eq_self
  intro c2 t2 h2
  rw [hc, List.cons_append, List.cons.injEq] at h2
  rw [← h2.1]
  exact hws

theorem sepOk_dumpsO (kvs : List (String × JVal)) (rest : List Char) :
    sepOk (dumpsO kvs ++ rbrace :: rest) := by
  cases kvs with
  | nil => exact ⟨by decide, by decide, by decide, by decide⟩
  | cons kv t =>
      obtain ⟨k, v⟩ := kv
      exact ⟨by decide, by decide, by decide, by decide⟩

theorem sepOk_dumpsA (xs : List JVal) (rest : List Char) :
    sepOk (dumpsA xs ++ ']' :: rest) := by
  cases xs with
  | nil => exact ⟨by decide, by decide, by decide, by decide⟩
  | cons x t => exact ⟨by decide, by decide, by decide, by decide⟩

theorem parseVal_null_red (fuel : ℕ) (r : List Char) :
    parseVal (fuel + 1) ('n' :: 'u' :: 'l' :: 'l' :: r)
      = some (.jnull, r) := rfl

theorem parseVal_true_red (fuel : ℕ) (r : List Char) :
    parseVal (fuel + 1) ('t' :: 'r' :: 'u' :: 'e' :: r)
      = some (.jbool true, r) := rfl

theorem parseVal_false_red (fuel : ℕ) (r : List Char) :
    parseVal (fuel + 1) ('f' :: 'a' :: 'l' :: 's' :: 'e' :: r)
      = some (.jbool false, r) := rfl

theorem parseVal_quote_red (fuel : ℕ) (r : List Char) :
    parseVal (fuel + 1) ('"' :: r)
      = (parseStr r).map (fun x => (.jstr ⟨x.1⟩, x.2)) := rfl

theorem parseVal_arr_empty_red (fuel : ℕ) (r : List Char) :
    parseVal (fuel + 1) ('[' :: ']' :: r) = some (.jarr [], r) := rfl

theorem parseVal_obj_empty_red (fuel : ℕ) (r : List Char) :
    parseVal (fuel + 1) (lbrace :: rbrace :: r) = some (.jobj [], r) := rfl

theorem parseVal_num_red (fuel : ℕ) (c : Char) (r : List Char)
    (h : c.toNat = 45 ∨ (48 ≤ c.toNat ∧ c.toNat ≤ 57)) :
    parseVal (fuel + 1) (c :: r) = parseNum (c :: r) := by
  have h45 : ('-' : Char).toNat = 45 := rfl
  have h1 : c = '-' ∨ c.isDigit = true := by
    rcases h with h | h
    · left
      rw [char_eq_iff_toNat, h45]
      exact h
    · right
      rw [char_isDigit_iff]
      exact h
  simp only [parseVal]
  split
  · next heq =>
      rw [List.cons.injEq] at heq
      obtain ⟨hc, -⟩ := heq
      rw [hc] at h
      rcases h with h | h
      · exact absurd h (by decide)
      · exact absurd h (by decide)
  · next heq =>
      rw [List.cons.injEq] at heq
      obtain ⟨hc, -⟩ := heq
      rw [hc] at h
      rcases h with h | h
      · exact absurd h (by decide)
      · exact absurd h (by decide)
  · next heq =>
      rw [List.cons.injEq] at heq
      obtain ⟨hc, -⟩ := heq
      rw [hc] at h
      rcases h with h | h
      · exact absurd h (by decide)
      · exact absurd h (by decide)
  · next heq =>
      rw [List.cons.injEq] at heq
      obtain ⟨hc, -⟩ := heq
      rw [hc] at h
      rcases h with h | h
      · exact absurd h (by decide)
      · exact absurd h (by decide)
  · next heq =>
      rw [List.cons.injEq] at heq
      obtain ⟨hc, -⟩ := heq
      rw [hc] at h
      rcases h with h | h
      · exact absurd h (by decide)
      · exact absurd h (by decide)
  · next cs0 c0 r0 n1 n2 n3 n4 n5 heq =>
      rw [List.cons.injEq] at heq
      obtain ⟨hc, hr⟩ := heq
      have hlb : ¬ c0 = lbrace := by
        intro hc2
        have hct : c.toNat = 123 := by
          rw [hc, hc2]
          rfl
        rcases h with h | h
        · omega
        · omega
      rw [if_neg hlb]
      rw [if_pos (by
        rw [← hc]
        rcases h1 with h1 | h1
        · rw [h1]
          simp
        · rw [h1]
          simp)]
      rw [hc, hr]
  · next heq =>
      exact absurd heq (by simp)

theorem parseVal_lbrack_red (fuel : ℕ) (r : List Char) :
    parseVal (fuel + 1) ('[' :: r)
      = (match skipWs r with
         | c2 :: r2 =>
             if c2 = ']' then some (.jarr [], r2)
             else (parseElems fuel (c2 :: r2)).map
               (fun x => (.jarr x.1, x.2))
         | [] => none) := rfl

theorem parseVal_lbrace_red (fuel : ℕ) (r : List Char) :
    parseVal (fuel + 1) (lbrace :: r)
      = (match skipWs r with
         | c2 :: r2 =>
             if c2 = rbrace then some (.jobj [], r2)
             else (parseMembers fuel (c2 :: r2)).map
               (fun x => (.jobj (pyDict x.1), x.2))
         | [] => none) := rfl

theorem parseVal_lbrack_cons (fuel : ℕ) (c : Char) (t : List Char)
    (h1 : isWsChar c = false) (h2 : ¬ c = ']') :
    parseVal (fuel + 1) ('[' :: c :: t)
      = (parseElems fuel (c :: t)).map (fun x => (.jarr x.1, x.2)) := by
  rw [parseVal_lbrack_red]
  rw [skipWs_eq_self (c :: t) (by
    intro c2 t2 h0
    rw [List.cons.injEq] at h0
    rw [← h0.1]
    exact h1)]
  dsimp only
  rw [if_neg h2]

theorem parseVal_lbrace_cons (fuel : ℕ) (c : Char) (t : List Char)
    (h1 : isWsChar c = false) (h2 : ¬ c = rbrace) :
    parseVal (fuel + 1) (lbrace :: c :: t)
      = (parseMembers fuel (c :: t)).map
          (fun x => (.jobj (pyDict x.1), x.2)) := by
  rw [parseVal_lbrace_red]
  rw [skipWs_eq_self (c :: t) (by
    intro c2 t2 h0
    rw [List.cons.injEq] at h0
    rw [← h0.1]
    exact h1)]
  dsimp only
  rw [if_neg h2]

theorem renderNum_head (m : ℤ) (p : ℕ) :
    ∃ c t, renderNum m p = c :: t
      ∧ (c.toNat = 45 ∨ (48 ≤ c.toNat ∧ c.toNat ≤ 57)) := by
  by_cases hm : m < 0
  · by_cases hp : p = 0
    · have hd : renderNum m p = '-' :: natDigits m.natAbs := by
        dsimp only [renderNum]
        rw [if_pos hp, if_pos hm]
        rfl
      exact ⟨'-', _, hd, Or.inl rfl⟩
    · have hd : renderNum m p
          = '-' :: (natDigits (m.natAbs / 10 ^ p)
            ++ '.' :: (List.replicate
                (p - (natDigits (m.natAbs % 10 ^ p)).length) '0'
              ++ natDigits (m.natAbs % 10 ^ p))) := by
        dsimp only [renderNum]
        rw [if_neg hp, if_pos hm]
        rfl
      exact ⟨'-', _, hd, Or.inl rfl⟩
  · by_cases hp : p = 0
    · obtain ⟨-, -, ⟨k, t, hcons, hk, -, -⟩, -⟩ := natDigits_spec m.natAbs
      have ht := char_toNat_ofNat_small (48 + k) (by omega)
      have hd : renderNum m p = Char.ofNat (48 + k) :: t := by
        dsimp only [renderNum]
        rw [if_pos hp, if_neg hm, List.nil_append, hcons]
      exact ⟨_, _, hd, Or.inr (by rw [ht]; omega)⟩
    · obtain ⟨-, -, ⟨k, t, hcons, hk, -, -⟩, -⟩ :=
        natDigits_spec (m.natAbs / 10 ^ p)
      have ht := char_toNat_ofNat_small (48 + k) (by omega)
      have hd : renderNum m p
          = Char.ofNat (48 + k) :: (t
            ++ '.' :: (List.replicate
                (p - (natDigits (m.natAbs % 10 ^ p)).length) '0'
              ++ natDigits (m.natAbs % 10 ^ p))) := by
        dsimp only [renderNum]
        rw [if_neg hp, if_neg hm, List.nil_append, hcons, List.cons_append]
      exact ⟨_, _, hd, Or.inr (by rw [ht]; omega)⟩

theorem parse_dumps (fuel : ℕ) :
    (∀ (v : JVal) (rest : List Char), needV v ≤ fuel → wfJ v → sepOk rest →
      parseVal fuel (dumpsJ v ++ rest) = some (v, rest)) ∧
    (∀ (x : JVal) (xs : List JVal) (rest : List Char),
      needI (x :: xs) ≤ fuel → wfL (x :: xs) →
      parseElems fuel (dumpsJ x ++ (dumpsA xs ++ ']' :: rest))
        = some (x :: xs, rest)) ∧
    (∀ (k : String) (v : JVal) (kvs : List (String × JVal))
        (rest : List Char),
      needM ((k, v) :: kvs) ≤ fuel → wfJ v → wfO kvs →
      parseMembers fuel
        ('"' :: ((k.data.map (fun c => escapeChar c.toNat)).flatten
          ++ '"' :: (':' :: ' ' :: (dumpsJ v
            ++ (dumpsO kvs ++ rbrace :: rest)))))
        = some ((k, v) :: kvs, rest)) := by
  induction fuel with
  | zero =>
      refine ⟨?_, ?_, ?_⟩
      · intro v rest hn _ _
        have h1 : 1 ≤ needV v := by
          cases v <;> simp [needV]
        omega
      · intro x xs rest hn _
        have h1 : 1 ≤ needI (x :: xs) := by
          simp only [needI]
          omega
        omega
      · intro k v kvs rest hn _ _
        have h1 : 1 ≤ needM ((k, v) :: kvs) := by
          simp only [needM]
          omega
        omega
  | succ fuel ih =>
      obtain ⟨ihV, ihE, ihM⟩ := ih
      refine ⟨?_, ?_, ?_⟩
      · intro v rest hn hwf hsep
        cases v with
        | jnull =>
            rw [show dumpsJ .jnull ++ rest = 'n' :: 'u' :: 'l' :: 'l' :: rest
              from rfl]
            exact parseVal_null_red fuel rest
        | jbool b =>
            cases b with
            | false =>
                rw [show dumpsJ (.jbool false) ++ rest
                  = 'f' :: 'a' :: 'l' :: 's' :: 'e' :: rest from rfl]
                exact parseVal_false_red fuel rest
            | true =>
                rw [show dumpsJ (.jbool true) ++ rest
                  = 't' :: 'r' :: 'u' :: 'e' :: rest from rfl]
                exact parseVal_true_red fuel rest
        | jnum m p =>
            obtain ⟨c, t, hcons, hdig⟩ := renderNum_head m p
            rw [show dumpsJ (.jnum m p) = renderNum m p from rfl, hcons,
              List.cons_append]
            rw [parseVal_num_red fuel c _ hdig]
            rw [← List.cons_append, ← hcons]
            exact parseNum_renderNum m p rest hsep
        | jstr s =>
            rw [show dumpsJ (.jstr s) ++ rest
              = '"' :: ((s.data.map (fun c => escapeChar c.toNat)).flatten
                ++ '"' :: rest) from by
                dsimp only [dumpsJ, escapeString]
                simp]
            rw [parseVal_quote_red]
            rw [parseStr_escape]
            rfl
        | jarr xs =>
            cases xs with
            | nil =>
                rw [show dumpsJ (.jarr []) ++ rest = '[' :: ']' :: rest
                  from rfl]
                exact parseVal_arr_empty_red fuel rest
            | cons x xs =>
                obtain ⟨c, t, hcons, hws, hbr⟩ := dumpsJ_head x
                have hshape : dumpsJ (.jarr (x :: xs)) ++ rest
                    = '[' :: (c :: (t ++ (dumpsA xs ++ ']' :: rest))) := by
                  dsimp only [dumpsJ]
                  rw [hcons]
                  simp [List.append_assoc]
                rw [hshape]
                rw [parseVal_lbrack_cons fuel c _ hws hbr]
                rw [show c :: (t ++ (dumpsA xs ++ ']' :: rest))
                  = dumpsJ x ++ (dumpsA xs ++ ']' :: rest) from by
                    rw [hcons]
                    rfl]
                rw [ihE x xs rest (by
                  simp only [needV, needI] at hn ⊢
                  omega) hwf]
                rfl
        | jobj kvs =>
            cases kvs with
            | nil =>
                rw [show dumpsJ (.jobj []) ++ rest
                  = lbrace :: rbrace :: rest from rfl]
                exact parseVal_obj_empty_red fuel rest
            | cons kv kvs =>
                obtain ⟨k, v2⟩ := kv
                have hshape : dumpsJ (.jobj ((k, v2) :: kvs)) ++ rest
                    = lbrace :: ('"'
                      :: ((k.data.map (fun c => escapeChar c.toNat)).flatten
                        ++ '"' :: (':' :: ' ' :: (dumpsJ v2
                          ++ (dumpsO kvs ++ rbrace :: rest))))) := by
                  dsimp only [dumpsJ, escapeString]
                  simp [List.append_assoc]
                rw [hshape]
                rw [parseVal_lbrace_cons fuel '"' _ (by decide) (by decide)]
                rw [ihM k v2 kvs rest (by
                  simp only [needV, needM] at hn ⊢
                  omega) hwf.2.1 hwf.2.2]
                simp only [Option.map_some']
                rw [pyDict_nodup _ hwf.1]
      · intro x xs rest hn hwf
        simp only [parseElems]
        rw [ihV x (dumpsA xs ++ ']' :: rest) (by
          simp only [needI] at hn
          omega) hwf.1 (sepOk_dumpsA xs rest)]
        dsimp only
        cases xs with
        | nil =>
            rw [show dumpsA [] ++ ']' :: rest = ']' :: rest from rfl]
            rw [skipWs_eq_self (']' :: rest) (by
              intro c2 t2 h0
              rw [List.cons.injEq] at h0
              rw [← h0.1]
              decide)]
            dsimp only
            rw [if_neg (by decide), if_pos rfl]
        | cons y ys =>
            rw [show dumpsA (y :: ys) ++ ']' :: rest
              = ',' :: (' ' :: (dumpsJ y ++ (dumpsA ys ++ ']' :: rest)))
              from by
                dsimp only [dumpsA]
                simp [List.append_assoc]]
            rw [skipWs_eq_self _ (by
              intro c2 t2 h0
              rw [List.cons.injEq] at h0
              rw [← h0.1]
              decide)]
            dsimp only
            rw [if_pos rfl]
            rw [show skipWs (' ' :: (dumpsJ y ++ (dumpsA ys
                ++ ']' :: rest)))
              = dumpsJ y ++ (dumpsA ys ++ ']' :: rest) from by
                rw [skipWs_cons_ws _ _ (by decide), skipWs_dumpsJ]]
            rw [ihE y ys rest (by
              simp only [needI] at hn ⊢
              omega) hwf.2]
            rfl
      · intro k v kvs rest hn hwfv hwfo
        simp only [parseMembers]
        rw [parseStr_escape k.data (':' :: ' ' :: (dumpsJ v
          ++ (dumpsO kvs ++ rbrace :: rest)))]
        dsimp only
        rw [skipWs_eq_self _ (by
          intro c2 t2 h0
          rw [List.cons.injEq] at h0
          rw [← h0.1]
          decide)]
        dsimp only
        rw [if_pos rfl]
        rw [show skipWs (' ' :: (dumpsJ v ++ (dumpsO kvs
            ++ rbrace :: rest)))
          = dumpsJ v ++ (dumpsO kvs ++ rbrace :: rest) from by
            rw [skipWs_cons_ws _ _ (by decide), skipWs_dumpsJ]]
        rw [ihV v (dumpsO kvs ++ rbrace :: rest) (by
          simp only [needM] at hn
          omega) hwfv (sepOk_dumpsO kvs rest)]
        dsimp only
        cases kvs with
        | nil =>
            rw [show dumpsO [] ++ rbrace :: rest = rbrace :: rest
              from rfl]
            rw [skipWs_eq_self (rbrace :: rest) (by
              intro c2 t2 h0
              rw [List.cons.injEq] at h0
              rw [← h0.1]
              decide)]
            dsimp only
            rw [if_neg (by decide), if_pos rfl]
        | cons kv2 t2 =>
            obtain ⟨k2, v2⟩ := kv2
            rw [show dumpsO ((k2, v2) :: t2) ++ rbrace :: rest
              = ',' :: (' ' :: ('"'
                :: ((k2.data.map (fun c => escapeChar c.toNat)).flatten
                  ++ '"' :: (':' :: ' ' :: (dumpsJ v2
                    ++ (dumpsO t2 ++ rbrace :: rest)))))) from by
                dsimp only [dumpsO, escapeString]
                simp [List.append_assoc]]
            rw [skipWs_eq_self _ (by
              intro c2 t3 h0
              rw [List.cons.injEq] at h0
              rw [← h0.1]
              decide)]
            dsimp only
            rw [if_pos rfl]
            rw [show skipWs (' ' :: ('"'
                :: ((k2.data.map (fun c => escapeChar c.toNat)).flatten
                  ++ '"' :: (':' :: ' ' :: (dumpsJ v2
                    ++ (dumpsO t2 ++ rbrace :: rest))))))
              = '"' :: ((k2.data.map
                  (fun c => escapeChar c.toNat)).flatten
                ++ '"' :: (':' :: ' ' :: (dumpsJ v2
                  ++ (dumpsO t2 ++ rbrace :: rest)))) from by
                rw [skipWs_cons_ws _ _ (by decide)]
                apply skipWs_eq_self
                intro c2 t3 h0
                rw [List.cons.injEq] at h0
                rw [← h0.1]
                decide]
            rw [ihM k2 v2 t2 rest (by
              simp only [needM] at hn ⊢
              omega) hwfo.1 hwfo.2]
            rfl

mutual

theorem needV_le_dumpsJ : ∀ (v : JVal), needV v ≤ (dumpsJ v).length
  | .jnull => by simp [needV, dumpsJ]
  | .jbool b => by cases b <;> simp [needV, dumpsJ]
  | .jnum m p => by
      obtain ⟨c, t, hcons, -⟩ := renderNum_head m p
      simp only [needV, dumpsJ, hcons, List.length_cons]
      omega
  | .jstr s => by
      simp only [needV, dumpsJ, escapeString, List.length_cons,
        List.length_append]
      omega
  | .jarr [] => by simp [needV, needI, dumpsJ]
  | .jarr (x :: xs) => by
      have h1 := needV_le_dumpsJ x
      have h2 := needI_le_dumpsA xs
      simp only [needV, needI, dumpsJ, List.length_cons,
        List.length_append]
      omega
  | .jobj [] => by simp [needV, needM, dumpsJ]
  | .jobj ((k, v) :: kvs) => by
      have h1 := needV_le_dumpsJ v
      have h2 := needM_le_dumpsO kvs
      simp only [needV, needM, dumpsJ, escapeString, List.length_cons,
        List.length_append]
      omega

theorem needI_le_dumpsA : ∀ (xs : List JVal), needI xs ≤ (dumpsA xs).length
  | [] => by simp [needI, dumpsA]
  | x :: xs => by
      have h1 := needV_le_dumpsJ x
      have h2 := needI_le_dumpsA xs
      simp only [needI, dumpsA, List.length_cons, List.length_append]
      omega

theorem needM_le_dumpsO : ∀ (kvs : List (String × JVal)),
    needM kvs ≤ (dumpsO kvs).length
  | [] => by simp [needM, dumpsO]
  | (k, v) :: kvs => by
      have h1 := needV_le_dumpsJ v
      have h2 := needM_le_dumpsO kvs
      simp only [needM, dumpsO, escapeString, List.length_cons,
        List.length_append]
      omega

end

theorem loads_dumps (v : JVal) (h : wfJ v) :
    loads (dumps false v) = some v := by
  have hfuel : needV v ≤ (dumpsJ v).length + 1 :=
    le_trans (needV_le_dumpsJ v) (by omega)
  have hp := (parse_dumps ((dumpsJ v).length + 1)).1 v [] hfuel h trivial
  rw [List.append_nil] at hp
  have hsk : skipWs (dumpsJ v) = dumpsJ v := by
    have h2 := skipWs_dumpsJ v []
    rwa [List.append_nil] at h2
  rw [show dumps false v = (⟨dumpsJ v⟩ : String) from rfl]
  rw [loads]
  rw [show (⟨dumpsJ v⟩ : String).data = dumpsJ v from rfl]
  rw [hsk, hp]
  rfl


/-! ## Theorems for claim C2 — the IPC wire protocol round trip

encode_message writes a four-byte length header before the frame
content, but decode_message starts reading the message type at the very
first byte: decoding the raw output of encode_message therefore fails
(or, worse, misreads) on every message, and the reader in client.py
strips the header before calling decode_message. The round trip holds
exactly on the content after those four bytes. -/

theorem asStrMap_strobj : ∀ (l : List (String × String)),
    asStrMap (.jobj (l.map (fun kv => (kv.1, .jstr kv.2)))) = some l := by
  intro l
  induction l with
  | nil => rfl
  | cons kv t ih =>
      obtain ⟨k, v⟩ := kv
      simp only [asStrMap, List.map_cons, List.foldr_cons] at ih ⊢
      rw [ih]

theorem wfO_strobj : ∀ (l : List (String × String)),
    wfO (l.map (fun kv => (kv.1, .jstr kv.2))) := by
  intro l
  induction l with
  | nil => trivial
  | cons kv t ih =>
      obtain ⟨k, v⟩ := kv
      exact ⟨trivial, ih⟩

theorem wfJ_strobj (l : List (String × String))
    (h : (l.map Prod.fst).Nodup) :
    wfJ (.jobj (l.map (fun kv => (kv.1, .jstr kv.2)))) := by
  refine ⟨?_, wfO_strobj l⟩
  simpa [List.map_map, Function.comp] using h

theorem dumps_obj_ne_empty (kvs : List (String × JVal)) :
    (dumps false (.jobj kvs)).isEmpty = false := by
  rw [show dumps false (.jobj kvs)
    = (⟨dumpsJ (.jobj kvs)⟩ : String) from rfl]
  obtain ⟨c, t, hc, -, -⟩ := dumpsJ_head (.jobj kvs)
  cases hb : (⟨dumpsJ (.jobj kvs)⟩ : String).isEmpty with
  | false => rfl
  | true =>
      rw [String.isEmpty_iff] at hb
      have h2 : dumpsJ (.jobj kvs) = [] := by
        have h3 := congrArg String.data hb
        simpa using h3
      rw [hc] at h2
      exact absurd h2 (List.noConfusion)

theorem packU32_eq_some (n : ℕ) (p : List ℕ) (h : packU32 n = some p) :
    n < 4294967296 ∧ p = [n % 256, n / 256 % 256, n / 65536 % 256,
      n / 16777216 % 256] := by
  rw [packU32] at h
  by_cases hlt : n < 4294967296
  · rw [if_pos hlt] at h
    simp only [Option.some.injEq] at h
    exact ⟨hlt, h.symm⟩
  · rw [if_neg hlt] at h
    exact absurd h (by simp)

set_option maxRecDepth 4096 in
/-- Counterexample to claim C2 as stated: a request message with a dict
payload and non-empty metadata whose encode_message output is rejected
outright by decode_message (the first byte decode_message reads is the
low byte of the length header, not a valid message type). -/
theorem decodeMessage_encodeMessage_counterexample :
    msgC.data = MsgData.dict [("k", .jstr "v")]
    ∧ msgC.metadata ≠ []
    ∧ encodeMessage msgC = some bsC
    ∧ decodeMessage bsC = none :=
  ⟨rfl, fun h => List.noConfusion h, rfl, rfl⟩

/-- Claim C2, amended: for every message whose data payload is a dict
with recursively distinct keys and whose metadata map has distinct
keys, decoding the bytes produced by encode_message after dropping the
four-byte length header (exactly as the reader in client.py does)
reconstructs a message equal to the original: same type, id, service,
method, metadata map and a structurally equal dict payload. -/
theorem decodeMessage_encodeMessage_amended (msg : Message) (bs : List ℕ)
    (kvs : List (String × JVal))
    (hdata : msg.data = MsgData.dict kvs)
    (hwf : wfJ (.jobj kvs))
    (hmeta : (msg.metadata.map Prod.fst).Nodup)
    (henc : encodeMessage msg = some bs) :
    decodeMessage (bs.drop 4) = some msg := by
  obtain ⟨mt, mid, msvc, mmeth, mdata, mmeta⟩ := msg
  simp only at hdata hmeta
  subst hdata
  rw [encodeMessage] at henc
  simp only [Option.bind_eq_bind, Option.bind_eq_some, Option.pure_def,
    Option.some.injEq] at henc
  obtain ⟨p1, hp1, p2, hp2, p3, hp3, p4, hp4, p5, hp5, hdr, hhdr, hbs⟩ :=
    henc
  rw [← hbs]
  obtain ⟨-, hhdr4⟩ := packU32_eq_some _ _ hhdr
  rw [hhdr4]
  have hdrop : ∀ (a b c d : ℕ) (l : List ℕ),
      (([a, b, c, d] : List ℕ) ++ l).drop 4 = l := by
    intro a b c d l
    rfl
  rw [hdrop]
  rw [decodeMessage]
  simp only [Option.bind_eq_bind, List.head?_cons, Option.some_bind,
    messageType_ofByte_toByte, List.tail_cons]
  rw [show p1 ++ p2 ++ p3 ++ p4 ++ p5 = p1 ++ (p2 ++ (p3 ++ (p4 ++ p5)))
    from by simp [List.append_assoc]]
  rw [readStrField_lenPrefixed _ _ _ hp1]
  simp only [Option.some_bind]
  rw [readStrField_lenPrefixed _ _ _ hp2]
  simp only [Option.some_bind]
  rw [readStrField_lenPrefixed _ _ _ hp3]
  simp only [Option.some_bind]
  obtain ⟨hl4, he4⟩ := lenPrefixed_eq_some _ _ hp4
  rw [he4, List.append_assoc]
  rw [readU32_pack _ _ hl4]
  simp only [Option.some_bind]
  rw [List.take_left, List.drop_left]
  rw [utf8Decode_strBytes]
  simp only [Option.some_bind]
  rw [dumps_obj_ne_empty]
  simp only [Bool.false_eq_true, if_false]
  rw [loads_dumps _ (wfJ_strobj mmeta hmeta)]
  simp only [Option.some_bind]
  rw [asStrMap_strobj]
  simp only [Option.some_bind]
  dsimp only [MsgData.toBytes] at hp5
  obtain ⟨hl5, he5⟩ := lenPrefixed_eq_some _ _ hp5
  rw [he5]
  rw [readU32_pack _ _ hl5]
  simp only [Option.some_bind]
  rw [List.take_length]
  rw [utf8Decode_strBytes]
  dsimp only
  rw [loads_dumps _ hwf]
  dsimp only
  rfl

set_option maxRecDepth 4096 in
/-- Witness for the amended claim C2: the concrete message round-trips
once the four header bytes are dropped. -/
theorem decodeMessage_encodeMessage_amended_witness :
    msgC.data = MsgData.dict [("k", .jstr "v")]
    ∧ (msgC.metadata.map Prod.fst).Nodup
    ∧ encodeMessage msgC = some bsC
    ∧ decodeMessage (bsC.drop 4) = some msgC :=
  ⟨rfl, by decide, rfl,
    decodeMessage_encodeMessage_amended msgC bsC [("k", .jstr "v")] rfl
      ⟨by decide, trivial, trivial⟩ (by decide) rfl⟩

end NeoAI
